import Mathlib

/- Shallow embedding of a chat Minesweeper module: a 10x10 board of bombs and
   neighbour counts, a revealed grid of display states, a recursive flood fill,
   win/loss detection, and a per-player store of running games.  Grids are
   total functions on `Fin 10 × Fin 10`; the dynamically typed cell values
   ("bomb", "number", "hidden", "flag", integer counts) become one inductive
   type; the per-cell uniform draws of `random()` become an explicit
   `Fin 10 → Fin 10 → ℚ` parameter. -/

set_option maxRecDepth 100000
set_option maxHeartbeats 2000000

namespace Minesweeper

/-- Cell values as they appear in the dynamically typed grids: the strings
"bomb", "number" (placeholder), "hidden", "flag" and integer neighbour
counts. -/
inductive Cell where
  | bomb
  | number
  | num (n : Nat)
  | hidden
  | flag
deriving DecidableEq, Repr

/-- A 10x10 grid, indexed row first: `g y x` is `board[y][x]`. -/
abbrev Board := Fin 10 → Fin 10 → Cell

def getCell (g : Board) (p : Fin 10 × Fin 10) : Cell := g p.2 p.1

/-- The in-place assignment `grid[y][x] = v`, as a functional update. -/
def setCell (g : Board) (y x : Fin 10) (v : Cell) : Board :=
  fun y' x' => if y' = y ∧ x' = x then v else g y' x'

/-- The all-"hidden" revealed grid a game starts with. -/
def hiddenBoard : Board := fun _ _ => Cell.hidden

/-- The board with every cell `Number(0)`. -/
def zeroBoard : Board := fun _ _ => Cell.num 0

/-! ## The coordinate converter -/

/-- ASCII lowercasing, as `str.lower` acts on the characters the game uses. -/
def pyLower (c : Char) : Char :=
  if 'A' ≤ c ∧ c ≤ 'Z' then Char.ofNat (c.toNat + 32) else c

/-- `str.isdigit` on a single ASCII character. -/
def pyIsdigit (c : Char) : Bool := decide ('0' ≤ c ∧ c ≤ '9')

/-- Insert a character into an ascending list, keeping it ascending. -/
def insertSorted (c : Char) : List Char → List Char
  | [] => [c]
  | d :: rest => if c ≤ d then c :: d :: rest else d :: insertSorted c rest

/-- `sorted(...)` on the characters of a string: ascending by code point. -/
def pySorted (l : List Char) : List Char := l.foldr insertSorted []

/-- How a coordinate token can fail: the converter's explicit
`ArgumentParsingError`, or an uncaught `ValueError` (unpacking a wrongly
sized list into two names, or `int()` on a non-numeric string). -/
inductive ConvertError where
  | argumentParsingError
  | valueError
deriving DecidableEq, Repr

/-- `CoordinateConverter.convert`: length must be 2..3; the lowered characters
are sorted and unpacked as `digit, letter` (a 3-character token makes this
unpacking raise `ValueError`); the code then demands `letter.isdigit()`,
computes `x = ord(letter.lower()) - 97` and `y = int(digit) - 1` (a
non-numeric `digit` makes `int` raise `ValueError`), and range-checks both
into 0..9. -/
def convert (coordinate : String) : Except ConvertError (Int × Int) :=
  if ¬ (2 ≤ coordinate.length ∧ coordinate.length ≤ 3) then
    Except.error ConvertError.argumentParsingError
  else
    match pySorted (coordinate.data.map pyLower) with
    | [digit, letter] =>
      if ¬ pyIsdigit letter then Except.error ConvertError.argumentParsingError
      else if ¬ pyIsdigit digit then Except.error ConvertError.valueError
      else
        let x : Int := ((pyLower letter).toNat : Int) - 97
        let y : Int := ((digit.toNat : Int) - 48) - 1
        if ¬ (0 ≤ x ∧ x ≤ 9) ∨ ¬ (0 ≤ y ∧ y ≤ 9) then
          Except.error ConvertError.argumentParsingError
        else Except.ok (x, y)
    | _ => Except.error ConvertError.valueError

/-- Claim C1.  The converter in the source rejects every valid-looking token:
after sorting the lowered characters ascending, the digit sorts first, yet the
code demands that the second, larger character (`letter`) be a digit, so
"a1", "1a", "A1" all raise `ArgumentParsingError` instead of parsing to
`(0,0)`; a 3-character token such as "j10" raises `ValueError` while
unpacking three sorted characters into two names instead of parsing to
`(9,9)`.  The tokens the claim expects to fail do all fail. -/
theorem c1_convert_rejects_everything :
    convert "a1" = Except.error ConvertError.argumentParsingError ∧
    convert "1a" = Except.error ConvertError.argumentParsingError ∧
    convert "A1" = Except.error ConvertError.argumentParsingError ∧
    convert "j10" = Except.error ConvertError.valueError ∧
    convert "10j" = Except.error ConvertError.valueError ∧
    convert "k1" = Except.error ConvertError.argumentParsingError ∧
    convert "a11" = Except.error ConvertError.valueError ∧
    convert "11" = Except.error ConvertError.argumentParsingError ∧
    convert "" = Except.error ConvertError.argumentParsingError :=
  ⟨rfl, rfl, rfl, rfl, rfl, rfl, rfl, rfl, rfl⟩

/-! ## Neighbourhoods -/

/-- `get_neighbours`: all `(x_, y_)` with `x_` in `[x-1, x, x+1]` (outer loop)
and `y_` in `[y-1, y, y+1]` (inner loop), dropping `-1` and `10` — the cell
itself is included. -/
def get_neighbours (x y : Int) : List (Int × Int) :=
  ([x - 1, x, x + 1]).flatMap (fun a =>
    (([y - 1, y, y + 1]).filter
      (fun b => decide (a ≠ -1 ∧ a ≠ 10 ∧ b ≠ -1 ∧ b ≠ 10))).map (fun b => (a, b)))

/-- `get_neighbours` on in-grid coordinates, re-indexed into `Fin 10`; the
lemma `neighbours_int` checks nothing is dropped by the re-indexing. -/
def neighbours (x y : Fin 10) : List (Fin 10 × Fin 10) :=
  (get_neighbours (x : Int) (y : Int)).filterMap (fun p =>
    if h : 0 ≤ p.1 ∧ p.1 < 10 ∧ 0 ≤ p.2 ∧ p.2 < 10 then
      some (⟨p.1.toNat, by omega⟩, ⟨p.2.toNat, by omega⟩)
    else none)

/-- All 100 grid coordinates as `(x, y)` pairs, row by row (`y` outer, `x`
inner), the order in which `generate_board` walks the grid. -/
def allCoords : List (Fin 10 × Fin 10) :=
  (List.finRange 10).flatMap (fun y => (List.finRange 10).map (fun x => (x, y)))

/-! ## Board generation -/

/-- The comprehension in `generate_board`: each cell is `"bomb"` when its
uniform draw satisfies `random() <= bomb_chance`, else the `"number"`
placeholder.  `draws y x` is the draw made for `board[y][x]`. -/
def initial_board (bomb_chance : ℚ) (draws : Fin 10 → Fin 10 → ℚ) : Board :=
  fun y x => if draws y x ≤ bomb_chance then Cell.bomb else Cell.number

/-- The inner counting loop of `generate_board`: the number of `"bomb"`
entries among `get_neighbours(x, y)` of the current board. -/
def count_bombs (b : Board) (x y : Fin 10) : Nat :=
  ((neighbours x y).filter (fun p => decide (getCell b p = Cell.bomb))).length

/-- One step of the second pass of `generate_board`: if the cell still holds
the `"number"` placeholder, overwrite it with its bomb count (computed from
the board as it stands mid-pass). -/
def fill_step (acc : Board) (p : Fin 10 × Fin 10) : Board :=
  if getCell acc p = Cell.number then
    setCell acc p.2 p.1 (Cell.num (count_bombs acc p.1 p.2))
  else acc

/-- The second pass of `generate_board`, walking the grid row by row. -/
def fill_numbers (b : Board) : Board := allCoords.foldl fill_step b

/-- `Minesweeper.generate_board`. -/
def generate_board (bomb_chance : ℚ) (draws : Fin 10 → Fin 10 → ℚ) : Board :=
  fill_numbers (initial_board bomb_chance draws)

/-! ## Reveal, flood fill, flag -/

/-- The loop body of `reveal_zeros`, abstracted over the recursive call
`inner`: for each neighbour, skip it unless it is `"hidden"`; otherwise set it
to its board value and, when that value is `0`, recurse into it. -/
def revealLoop (b : Board) (inner : Board → Fin 10 → Fin 10 → Board) :
    Board → List (Fin 10 × Fin 10) → Board
  | r, [] => r
  | r, (x, y) :: rest =>
    if r y x ≠ Cell.hidden then revealLoop b inner r rest
    else
      let r' := setCell r y x (b y x)
      if b y x = Cell.num 0 then revealLoop b inner (inner r' x y) rest
      else revealLoop b inner r' rest

/-- `reveal_zeros`, with the recursion depth made explicit as `fuel`: depth
`fuel + 1` runs the loop over `get_neighbours(x, y)` with recursive calls at
depth `fuel`; depth `0` does nothing.  Each recursive call is made just after
a hidden cell was overwritten, so (theorem for C10) any `fuel` larger than
the number of hidden cells computes the same grid. -/
def revealZerosF (b : Board) : Nat → Board → Fin 10 → Fin 10 → Board
  | 0, r, _, _ => r
  | fuel + 1, r, x, y => revealLoop b (revealZerosF b fuel) r (neighbours x y)

/-- `Minesweeper.reveal_zeros` (arguments in source order: revealed grid,
board, coordinates).  A 10x10 grid has at most 100 hidden cells, so depth 101
always suffices. -/
def reveal_zeros (revealed board : Board) (x y : Fin 10) : Board :=
  revealZerosF board 101 revealed x y

/-- `Minesweeper.check_if_won`: the game is won unless some cell is
`"hidden"` or `"flag"` while the board there is not a bomb. -/
def check_if_won (revealed board : Board) : Bool :=
  ! allCoords.any (fun p =>
      decide ((getCell revealed p = Cell.hidden ∨ getCell revealed p = Cell.flag) ∧
        getCell board p ≠ Cell.bomb))

/-- The `Lost` / `Won` / game-continues outcome of one reveal. -/
inductive Outcome where
  | ongoing
  | lost
  | won
deriving DecidableEq, Repr

/-- `Minesweeper.reveal_one`: write the board value over `revealed[y][x]`
(whatever its display state was); a bomb loses at once; a zero triggers the
flood fill; then the win check runs.  Returns the mutated revealed grid and
the outcome. -/
def reveal_one (revealed board : Board) (x y : Fin 10) : Board × Outcome :=
  let revealed1 := setCell revealed y x (board y x)
  if board y x = Cell.bomb then (revealed1, Outcome.lost)
  else
    let revealed2 :=
      if board y x = Cell.num 0 then reveal_zeros revealed1 board x y else revealed1
    if check_if_won revealed2 board then (revealed2, Outcome.won)
    else (revealed2, Outcome.ongoing)

/-- The loop of `reveal_command` over the batch of coordinates: stop at the
first coordinate whose reveal ends the game; `lost()` / `won()` have then
replaced the record's revealed grid wholesale with the board.  Returns the
record's final revealed grid and whether the game ended. -/
def reveal_list (board revealed : Board) : List (Fin 10 × Fin 10) → Board × Bool
  | [] => (revealed, false)
  | (x, y) :: rest =>
    if (reveal_one revealed board x y).2 ≠ Outcome.ongoing then (board, true)
    else reveal_list board (reveal_one revealed board x y).1 rest

/-- The loop of `flag_command`: flag each named cell that is `"hidden"`;
anything else is left alone. -/
def flag_list (revealed : Board) : List (Fin 10 × Fin 10) → Board
  | [] => revealed
  | (x, y) :: rest =>
    flag_list (if revealed y x = Cell.hidden then setCell revealed y x Cell.flag
               else revealed) rest

/-! ## The per-player game store -/

/-- The data for a game (the two message surfaces are external I/O handles
and carry no game state). -/
structure Game where
  board : Board
  revealed : Board

/-- `self.games`: player id to running game. -/
def GamesDict := Nat → Option Game

/-- What `start_command` tells its caller. -/
inductive StartResult where
  | gameAlreadyActive
  | started
deriving DecidableEq, Repr

/-- Store one player's slot (`self.games[pid] = v` or `del self.games[pid]`
as `v = none`). -/
def updateStore (games : GamesDict) (pid : Nat) (v : Option Game) : GamesDict :=
  fun p => if p = pid then v else games p

/-- `start_command`: a player with a running game is turned away and nothing
is stored; otherwise a fresh board and an all-hidden revealed grid are stored
under the player's id. -/
def start_command (games : GamesDict) (pid : Nat) (bomb_chance : ℚ)
    (draws : Fin 10 → Fin 10 → ℚ) : GamesDict × StartResult :=
  match games pid with
  | some _ => (games, StartResult.gameAlreadyActive)
  | none =>
    (updateStore games pid
      (some { board := generate_board bomb_chance draws, revealed := hiddenBoard }),
     StartResult.started)

/-- `flag_command` at the store level (a missing record makes the Python
lookup raise `KeyError` before any state is touched). -/
def flag_command (games : GamesDict) (pid : Nat)
    (coords : List (Fin 10 × Fin 10)) : GamesDict :=
  match games pid with
  | none => games
  | some g =>
    updateStore games pid (some { board := g.board, revealed := flag_list g.revealed coords })

/-- `reveal_command` at the store level: run the batch; if some reveal ended
the game the record (whose revealed grid now is the full board) is deleted,
else the record keeps the updated revealed grid. -/
def reveal_command (games : GamesDict) (pid : Nat)
    (coords : List (Fin 10 × Fin 10)) : GamesDict :=
  match games pid with
  | none => games
  | some g =>
    if (reveal_list g.board g.revealed coords).2 then
      updateStore games pid none
    else
      updateStore games pid
        (some { board := g.board, revealed := (reveal_list g.board g.revealed coords).1 })

/-- `end_command`: disclose the board and delete the record. -/
def end_command (games : GamesDict) (pid : Nat) : GamesDict :=
  match games pid with
  | none => games
  | some _ => updateStore games pid none

/-- One player-issued command, for stating store-level invariants. -/
inductive Command where
  | start (pid : Nat) (bomb_chance : ℚ) (draws : Fin 10 → Fin 10 → ℚ)
  | flag (pid : Nat) (coords : List (Fin 10 × Fin 10))
  | reveal (pid : Nat) (coords : List (Fin 10 × Fin 10))
  | endGame (pid : Nat)

/-- Dispatch one command against the store. -/
def applyCommand (games : GamesDict) : Command → GamesDict
  | Command.start pid bc draws => (start_command games pid bc draws).1
  | Command.flag pid coords => flag_command games pid coords
  | Command.reveal pid coords => reveal_command games pid coords
  | Command.endGame pid => end_command games pid

/-! ## Spec-side notions -/

/-- 8-directional grid adjacency (this version includes the cell itself, as
`get_neighbours` does): both coordinates differ by at most one. -/
def adj (x y : Fin 10) (p : Fin 10 × Fin 10) : Prop :=
  ((p.1 : Int) - (x : Int)).natAbs ≤ 1 ∧ ((p.2 : Int) - (y : Int)).natAbs ≤ 1

instance (x y : Fin 10) (p : Fin 10 × Fin 10) : Decidable (adj x y p) := by
  unfold adj; infer_instance

/-- The spec's neighbour bomb count of `(x, y)` on board `b`: the number of
`Bomb` cells among the up-to-8 grid neighbours (8-directional, clipped at the
board edges), not counting the cell itself. -/
def spec_bomb_count (b : Board) (x y : Fin 10) : Nat :=
  (Finset.univ.filter (fun p : Fin 10 × Fin 10 =>
    p ≠ (x, y) ∧ adj x y p ∧ getCell b p = Cell.bomb)).card

/-- A grid usable as a game board: no cell holds one of the display states
`"hidden"` / `"flag"` (generated boards hold only bombs and numbers). -/
def wellFormed (b : Board) : Prop :=
  ∀ p : Fin 10 × Fin 10, getCell b p ≠ Cell.hidden ∧ getCell b p ≠ Cell.flag

instance (b : Board) : Decidable (wellFormed b) := by
  unfold wellFormed; infer_instance

/-- A revealed grid that matches its board: every cell is hidden, flagged,
or shows its board value. -/
def coherent (b r : Board) : Prop :=
  ∀ p : Fin 10 × Fin 10,
    getCell r p = Cell.hidden ∨ getCell r p = Cell.flag ∨ getCell r p = getCell b p

instance (b r : Board) : Decidable (coherent b r) := by
  unfold coherent; infer_instance

/-- Number of `"hidden"` cells of a grid — the quantity the flood fill's
recursion strictly decreases. -/
def hiddenCount (r : Board) : Nat :=
  (Finset.univ.filter (fun p : Fin 10 × Fin 10 => getCell r p = Cell.hidden)).card

/-- `r'` arises from `r` by reveal writes only: each cell is unchanged, or
was `"hidden"` and now holds its board value. -/
def Evolves (b r r' : Board) : Prop :=
  ∀ p : Fin 10 × Fin 10,
    getCell r' p = getCell r p ∨ (getCell r p = Cell.hidden ∧ getCell r' p = getCell b p)

/-- Chains the flood fill can follow on board `b` over grid `r`:
`Sprout b r t q` holds when `q = t`, or `t` is a still-hidden zero cell and
some neighbour of `t` reaches `q`.  Interior cells of a chain are hidden
zeros; the final cell is unconstrained (it may be the non-zero boundary). -/
inductive Sprout (b r : Board) : Fin 10 × Fin 10 → Fin 10 × Fin 10 → Prop
  | refl (t : Fin 10 × Fin 10) : Sprout b r t t
  | step (t t' q : Fin 10 × Fin 10) :
      getCell r t = Cell.hidden → getCell b t = Cell.num 0 →
      t' ∈ neighbours t.1 t.2 → Sprout b r t' q → Sprout b r t q

/-- The spec's flood-fill reach from a just-revealed zero at `(x, y)` over
grid `r`: the cells 8-connected-reachable through chains of still-hidden
zero cells, together with their immediate boundary cells. -/
def FloodReach (b r : Board) (x y : Fin 10) (q : Fin 10 × Fin 10) : Prop :=
  ∃ t ∈ neighbours x y, Sprout b r t q

/-! ## Grid basics -/

theorem getCell_setCell_self (g : Board) (y x : Fin 10) (v : Cell) :
    getCell (setCell g y x v) (x, y) = v := by
  simp [getCell, setCell]

theorem getCell_setCell_ne (g : Board) (y x : Fin 10) (v : Cell)
    (p : Fin 10 × Fin 10) (h : p ≠ (x, y)) :
    getCell (setCell g y x v) p = getCell g p := by
  have hc : ¬ (p.2 = y ∧ p.1 = x) := fun hc => h (Prod.ext_iff.mpr ⟨hc.2, hc.1⟩)
  simp [getCell, setCell, hc]

theorem allCoords_nodup : allCoords.Nodup := by decide

theorem mem_allCoords : ∀ p : Fin 10 × Fin 10, p ∈ allCoords := by decide

theorem neighbours_nodup : ∀ x y : Fin 10, (neighbours x y).Nodup := by decide

/-- Membership in the embedded `get_neighbours` agrees with the spec's
adjacency relation (which includes the cell itself). -/
theorem mem_neighbours :
    ∀ (x y : Fin 10) (p : Fin 10 × Fin 10), p ∈ neighbours x y ↔ adj x y p := by
  decide

/-- The `Fin`-indexed neighbour list is the integer-level `get_neighbours`
verbatim: re-indexing dropped nothing. -/
theorem neighbours_int : ∀ x y : Fin 10,
    (neighbours x y).map (fun p => ((p.1 : Int), (p.2 : Int)))
      = get_neighbours (x : Int) (y : Int) := by
  decide

/-! ## Hidden-cell counting -/

theorem hiddenCount_le_100 (r : Board) : hiddenCount r ≤ 100 := by
  have h2 : (Finset.univ : Finset (Fin 10 × Fin 10)).card = 100 := by simp
  exact h2 ▸ Finset.card_filter_le _ _

theorem hiddenCount_set_lt (r : Board) (y x : Fin 10) (v : Cell)
    (hr : r y x = Cell.hidden) (hv : v ≠ Cell.hidden) :
    hiddenCount (setCell r y x v) < hiddenCount r := by
  unfold hiddenCount
  have hset : Finset.univ.filter
        (fun p : Fin 10 × Fin 10 => getCell (setCell r y x v) p = Cell.hidden)
      = (Finset.univ.filter
          (fun p : Fin 10 × Fin 10 => getCell r p = Cell.hidden)).erase (x, y) := by
    ext p
    by_cases hp : p = (x, y)
    · subst hp
      simp [getCell_setCell_self, hv, Finset.mem_erase]
    · simp [Finset.mem_erase, hp, getCell_setCell_ne r y x v p hp]
  rw [hset]
  have hmem : (x, y) ∈ Finset.univ.filter
      (fun p : Fin 10 × Fin 10 => getCell r p = Cell.hidden) := by
    simp [getCell, hr]
  have hcard := Finset.card_erase_of_mem hmem
  have hpos : 0 < (Finset.univ.filter
      (fun p : Fin 10 × Fin 10 => getCell r p = Cell.hidden)).card :=
    Finset.card_pos.mpr ⟨_, hmem⟩
  omega

theorem hiddenCount_set_le (r : Board) (y x : Fin 10) (v : Cell)
    (hr : r y x = Cell.hidden) :
    hiddenCount (setCell r y x v) ≤ hiddenCount r := by
  by_cases hv : v = Cell.hidden
  · subst hv
    have hsame : setCell r y x Cell.hidden = r := by
      funext y' x'
      unfold setCell
      split
      · next h => rw [h.1, h.2, hr]
      · rfl
    rw [hsame]
  · exact le_of_lt (hiddenCount_set_lt r y x v hr hv)

/-! ## The `Evolves` relation -/

theorem evolves_refl (b r : Board) : Evolves b r r := fun _ => Or.inl rfl

theorem evolves_trans {b r1 r2 r3 : Board}
    (h12 : Evolves b r1 r2) (h23 : Evolves b r2 r3) : Evolves b r1 r3 := by
  intro p
  rcases h23 p with h | h
  · rcases h12 p with h' | h'
    · exact Or.inl (h.trans h')
    · exact Or.inr ⟨h'.1, h.trans h'.2⟩
  · rcases h12 p with h' | h'
    · exact Or.inr ⟨h'.symm.trans h.1, h.2⟩
    · exact Or.inr ⟨h'.1, h.2⟩

theorem evolves_set {b r : Board} {y x : Fin 10} (hr : r y x = Cell.hidden) :
    Evolves b r (setCell r y x (b y x)) := by
  intro p
  by_cases hp : p = (x, y)
  · subst hp
    exact Or.inr ⟨hr, by rw [getCell_setCell_self]; rfl⟩
  · exact Or.inl (getCell_setCell_ne r y x _ p hp)

theorem evolves_hidden_sub {b r r' : Board} (h : Evolves b r r') (p : Fin 10 × Fin 10)
    (hp : getCell r' p = Cell.hidden) : getCell r p = Cell.hidden := by
  rcases h p with h1 | h2
  · rw [← h1]; exact hp
  · exact h2.1

theorem evolves_count_le {b r r' : Board} (h : Evolves b r r') :
    hiddenCount r' ≤ hiddenCount r := by
  unfold hiddenCount
  apply Finset.card_le_card
  intro p hp
  rw [Finset.mem_filter] at *
  exact ⟨hp.1, evolves_hidden_sub h p hp.2⟩

/-! ## Flood-fill: unfolding, preservation, stabilisation -/

theorem revealLoop_nil (b : Board) (inner : Board → Fin 10 → Fin 10 → Board) (r : Board) :
    revealLoop b inner r [] = r := rfl

theorem revealLoop_cons (b : Board) (inner : Board → Fin 10 → Fin 10 → Board)
    (r : Board) (x y : Fin 10) (rest : List (Fin 10 × Fin 10)) :
    revealLoop b inner r ((x, y) :: rest) =
      if r y x ≠ Cell.hidden then revealLoop b inner r rest
      else if b y x = Cell.num 0 then
        revealLoop b inner (inner (setCell r y x (b y x)) x y) rest
      else revealLoop b inner (setCell r y x (b y x)) rest := rfl

theorem revealZerosF_zero (b r : Board) (x y : Fin 10) :
    revealZerosF b 0 r x y = r := rfl

theorem revealZerosF_succ (b : Board) (fuel : Nat) (r : Board) (x y : Fin 10) :
    revealZerosF b (fuel + 1) r x y
      = revealLoop b (revealZerosF b fuel) r (neighbours x y) := rfl

theorem revealLoop_evolves (b : Board) (inner : Board → Fin 10 → Fin 10 → Board)
    (hinner : ∀ r x y, Evolves b r (inner r x y)) :
    ∀ (ns : List (Fin 10 × Fin 10)) (r : Board), Evolves b r (revealLoop b inner r ns) := by
  intro ns
  induction ns with
  | nil => intro r; exact evolves_refl b r
  | cons hd tl ih =>
    intro r
    obtain ⟨x, y⟩ := hd
    rw [revealLoop_cons]
    by_cases hr : r y x = Cell.hidden
    · rw [if_neg (by simp [hr])]
      by_cases hb : b y x = Cell.num 0
      · rw [if_pos hb]
        exact evolves_trans (evolves_set hr)
          (evolves_trans (hinner (setCell r y x (b y x)) x y) (ih _))
      · rw [if_neg hb]
        exact evolves_trans (evolves_set hr) (ih _)
    · rw [if_pos hr]
      exact ih r

theorem revealZerosF_evolves (b : Board) :
    ∀ (fuel : Nat) (r : Board) (x y : Fin 10), Evolves b r (revealZerosF b fuel r x y) := by
  intro fuel
  induction fuel with
  | zero => intro r x y; exact evolves_refl b r
  | succ n ih =>
    intro r x y
    rw [revealZerosF_succ]
    exact revealLoop_evolves b _ (fun r' x' y' => ih r' x' y') _ r

theorem revealLoop_congr (b : Board) (i1 i2 : Board → Fin 10 → Fin 10 → Board) (N : Nat)
    (hev : ∀ r x y, Evolves b r (i1 r x y))
    (hagree : ∀ r x y, hiddenCount r < N → i1 r x y = i2 r x y) :
    ∀ (ns : List (Fin 10 × Fin 10)) (r : Board), hiddenCount r ≤ N →
      revealLoop b i1 r ns = revealLoop b i2 r ns := by
  intro ns
  induction ns with
  | nil => intro r _; rfl
  | cons hd tl ih =>
    intro r hr
    obtain ⟨x, y⟩ := hd
    rw [revealLoop_cons, revealLoop_cons]
    by_cases h : r y x = Cell.hidden
    · have hcond : ¬ (r y x ≠ Cell.hidden) := by simp [h]
      rw [if_neg hcond, if_neg hcond]
      by_cases hb : b y x = Cell.num 0
      · rw [if_pos hb, if_pos hb]
        have hlt : hiddenCount (setCell r y x (b y x)) < hiddenCount r :=
          hiddenCount_set_lt r y x _ h (by rw [hb]; intro hc; cases hc)
        rw [← hagree (setCell r y x (b y x)) x y (lt_of_lt_of_le hlt hr)]
        exact ih _ (le_trans (evolves_count_le (hev _ x y))
          (le_trans (le_of_lt hlt) hr))
      · rw [if_neg hb, if_neg hb]
        exact ih _ (le_trans (hiddenCount_set_le r y x _ h) hr)
    · have hcond : r y x ≠ Cell.hidden := h
      rw [if_pos hcond, if_pos hcond]
      exact ih r hr

theorem revealZerosF_stab (b : Board) :
    ∀ (f1 f2 : Nat) (r : Board) (x y : Fin 10),
      hiddenCount r < f1 → hiddenCount r < f2 →
      revealZerosF b f1 r x y = revealZerosF b f2 r x y := by
  intro f1
  induction f1 using Nat.strong_induction_on with
  | _ f1 ih =>
    intro f2 r x y h1 h2
    cases f1 with
    | zero => omega
    | succ fa =>
      cases f2 with
      | zero => omega
      | succ fb =>
        rw [revealZerosF_succ, revealZerosF_succ]
        apply revealLoop_congr b _ _ (hiddenCount r)
          (fun r' x' y' => revealZerosF_evolves b fa r' x' y')
        · intro r' x' y' hlt
          exact ih fa (by omega) fb r' x' y' (by omega) (by omega)
        · exact le_refl _

/-- Claim C10.  `reveal_zeros` terminates on every board, every revealed
grid and every start cell: a recursive call happens only right after a
hidden cell was overwritten with `Number(0)`, so the number of hidden cells
(at most 100 on a 10x10 grid) strictly decreases along every recursion
path.  In the embedding the recursion depth is the explicit `fuel` of
`revealZerosF`, and any depth exceeding the current hidden-cell count — in
particular the depth 101 used by `reveal_zeros` — computes one and the same
grid. -/
theorem c10_reveal_zeros_terminates (revealed board : Board) (x y : Fin 10)
    (fuel : Nat) (hfuel : hiddenCount revealed < fuel) :
    revealZerosF board fuel revealed x y = reveal_zeros revealed board x y := by
  unfold reveal_zeros
  exact revealZerosF_stab board fuel 101 revealed x y hfuel
    (lt_of_le_of_lt (hiddenCount_le_100 revealed) (by omega))

/-- Witness for C10 at a concrete input: the all-hidden grid has 100 hidden
cells, and running the fill at depth 150 equals `reveal_zeros`. -/
theorem c10_reveal_zeros_terminates_witness :
    hiddenCount hiddenBoard < 150 ∧
      revealZerosF zeroBoard 150 hiddenBoard 0 0 = reveal_zeros hiddenBoard zeroBoard 0 0 :=
  ⟨by decide, c10_reveal_zeros_terminates hiddenBoard zeroBoard 0 0 150 (by decide)⟩

/-! ## Flood-fill: soundness and completeness -/

theorem evolves_pres {b r r' : Board} (h : Evolves b r r') (p : Fin 10 × Fin 10)
    (hp : getCell r p ≠ Cell.hidden) : getCell r' p = getCell r p := by
  rcases h p with h1 | h2
  · exact h1
  · exact absurd h2.1 hp

theorem evolves_changed {b r r' : Board} (h : Evolves b r r') (p : Fin 10 × Fin 10)
    (hne : getCell r' p ≠ getCell r p) :
    getCell r p = Cell.hidden ∧ getCell r' p = getCell b p := by
  rcases h p with h1 | h2
  · exact absurd h1 hne
  · exact h2

/-- Every neighbour the loop was asked to process ends up non-hidden
(given a board without display-state values). -/
theorem revealLoop_mem_not_hidden (b : Board) (inner : Board → Fin 10 → Fin 10 → Board)
    (hwf : wellFormed b) (hinner : ∀ r x y, Evolves b r (inner r x y)) :
    ∀ (ns : List (Fin 10 × Fin 10)) (r : Board) (p : Fin 10 × Fin 10), p ∈ ns →
      getCell (revealLoop b inner r ns) p ≠ Cell.hidden := by
  intro ns
  induction ns with
  | nil => intro r p hp; cases hp
  | cons hd tl ih =>
    intro r p hp
    obtain ⟨x, y⟩ := hd
    have keep : ∀ (r0 : Board), getCell r0 p ≠ Cell.hidden →
        getCell (revealLoop b inner r0 tl) p ≠ Cell.hidden := by
      intro r0 h0
      rw [evolves_pres (revealLoop_evolves b inner hinner tl r0) p h0]
      exact h0
    rw [revealLoop_cons]
    by_cases h : r y x = Cell.hidden
    · have hcond : ¬ (r y x ≠ Cell.hidden) := by simp [h]
      rw [if_neg hcond]
      rcases List.mem_cons.mp hp with hpxy | hptl
      · subst hpxy
        have hset : getCell (setCell r y x (b y x)) (x, y) ≠ Cell.hidden := by
          rw [getCell_setCell_self]
          exact (hwf (x, y)).1
        by_cases hb : b y x = Cell.num 0
        · rw [if_pos hb]
          have h1 : getCell (inner (setCell r y x (b y x)) x y) (x, y) ≠ Cell.hidden := by
            rw [evolves_pres (hinner _ x y) (x, y) hset]
            exact hset
          exact keep _ h1
        · rw [if_neg hb]
          exact keep _ hset
      · by_cases hb : b y x = Cell.num 0
        · rw [if_pos hb]; exact ih _ p hptl
        · rw [if_neg hb]; exact ih _ p hptl
    · rw [if_pos h]
      rcases List.mem_cons.mp hp with hpxy | hptl
      · subst hpxy
        exact keep r h
      · exact ih r p hptl

/-- Depth `fuel + 1` suffices to make every immediate neighbour of the start
cell non-hidden. -/
theorem revealZerosF_mem_not_hidden (b : Board) (hwf : wellFormed b) (fuel : Nat)
    (r : Board) (x y : Fin 10) (p : Fin 10 × Fin 10) (hp : p ∈ neighbours x y) :
    getCell (revealZerosF b (fuel + 1) r x y) p ≠ Cell.hidden := by
  rw [revealZerosF_succ]
  exact revealLoop_mem_not_hidden b _ hwf
    (fun r' x' y' => revealZerosF_evolves b fuel r' x' y') _ r p hp

/-- Closure of a fill result `R` relative to the grid `r0` the fill started
from: every newly revealed zero cell has all its neighbours non-hidden. -/
def FillClosed (b R r0 : Board) : Prop :=
  ∀ p : Fin 10 × Fin 10, getCell r0 p = Cell.hidden → getCell R p ≠ Cell.hidden →
    getCell b p = Cell.num 0 →
    ∀ p' ∈ neighbours p.1 p.2, getCell R p' ≠ Cell.hidden

theorem revealLoop_closed (b : Board) (inner : Board → Fin 10 → Fin 10 → Board) (N : Nat)
    (hev : ∀ r x y, Evolves b r (inner r x y))
    (hiP2 : ∀ (r : Board) (x y : Fin 10) (p : Fin 10 × Fin 10), hiddenCount r < N →
      p ∈ neighbours x y → getCell (inner r x y) p ≠ Cell.hidden)
    (hiQ : ∀ (r : Board) (x y : Fin 10), hiddenCount r < N → FillClosed b (inner r x y) r) :
    ∀ (ns : List (Fin 10 × Fin 10)) (r : Board), hiddenCount r ≤ N →
      FillClosed b (revealLoop b inner r ns) r := by
  intro ns
  induction ns with
  | nil =>
    intro r _ p hp0 hpR
    rw [revealLoop_nil] at hpR
    exact absurd hp0 hpR
  | cons hd tl ih =>
    intro r hr
    obtain ⟨x, y⟩ := hd
    have keep : ∀ (r0 : Board) (c : Fin 10 × Fin 10), getCell r0 c ≠ Cell.hidden →
        getCell (revealLoop b inner r0 tl) c ≠ Cell.hidden := by
      intro r0 c h0
      rw [evolves_pres (revealLoop_evolves b inner hev tl r0) c h0]
      exact h0
    intro p hp0 hpR hb0 p' hp'
    rw [revealLoop_cons] at hpR ⊢
    by_cases h : r y x = Cell.hidden
    · have hcond : ¬ (r y x ≠ Cell.hidden) := by simp [h]
      rw [if_neg hcond] at hpR ⊢
      by_cases hb : b y x = Cell.num 0
      · rw [if_pos hb] at hpR ⊢
        have hlt : hiddenCount (setCell r y x (b y x)) < hiddenCount r :=
          hiddenCount_set_lt r y x _ h (by rw [hb]; intro hc; cases hc)
        have hltN : hiddenCount (setCell r y x (b y x)) < N := lt_of_lt_of_le hlt hr
        have hR1N : hiddenCount (inner (setCell r y x (b y x)) x y) ≤ N :=
          le_trans (evolves_count_le (hev _ x y)) (le_of_lt hltN)
        by_cases h1 : getCell (inner (setCell r y x (b y x)) x y) p = Cell.hidden
        · exact ih _ hR1N p h1 hpR hb0 p' hp'
        · by_cases hpxy : p = (x, y)
          · have hp'' : p' ∈ neighbours x y := by
              rw [hpxy] at hp'; exact hp'
            exact keep _ p' (hiP2 _ x y p' hltN hp'')
          · have hset : getCell (setCell r y x (b y x)) p = Cell.hidden := by
              rw [getCell_setCell_ne r y x _ p hpxy]; exact hp0
            exact keep _ p' (hiQ _ x y hltN p hset h1 hb0 p' hp')
      · rw [if_neg hb] at hpR ⊢
        by_cases hpxy : p = (x, y)
        · subst hpxy
          have : getCell b (x, y) = b y x := rfl
          rw [this] at hb0
          exact absurd hb0 hb
        · have hset : getCell (setCell r y x (b y x)) p = Cell.hidden := by
            rw [getCell_setCell_ne r y x _ p hpxy]; exact hp0
          exact ih _ (le_trans (hiddenCount_set_le r y x _ h) hr) p hset hpR hb0 p' hp'
    · rw [if_pos h] at hpR ⊢
      exact ih r hr p hp0 hpR hb0 p' hp'

theorem revealZerosF_closed (b : Board) (hwf : wellFormed b) :
    ∀ (fuel : Nat) (r : Board) (x y : Fin 10), hiddenCount r < fuel →
      FillClosed b (revealZerosF b fuel r x y) r := by
  intro fuel
  induction fuel using Nat.strong_induction_on with
  | _ fuel ih =>
    intro r x y hlt
    cases fuel with
    | zero => omega
    | succ k =>
      rw [revealZerosF_succ]
      apply revealLoop_closed b _ (hiddenCount r)
        (fun r' x' y' => revealZerosF_evolves b k r' x' y') ?hP2 ?hQ _ r (le_refl _)
      case hP2 =>
        intro r'' x'' y'' p hcnt hp
        cases k with
        | zero => omega
        | succ k' => exact revealZerosF_mem_not_hidden b hwf k' r'' x'' y'' p hp
      case hQ =>
        intro r'' x'' y'' hcnt
        exact ih k (by omega) r'' x'' y'' (by omega)

theorem sprout_mono {b r1 r2 : Board}
    (hsub : ∀ p : Fin 10 × Fin 10, getCell r2 p = Cell.hidden → getCell r1 p = Cell.hidden) :
    ∀ {t q : Fin 10 × Fin 10}, Sprout b r2 t q → Sprout b r1 t q := by
  intro t q hs
  induction hs with
  | refl t => exact Sprout.refl t
  | step t t' q hhid hz hmem _ ih => exact Sprout.step t t' q (hsub t hhid) hz hmem ih

theorem revealLoop_sound (b : Board) (inner : Board → Fin 10 → Fin 10 → Board)
    (hev : ∀ r x y, Evolves b r (inner r x y))
    (hiS : ∀ (r : Board) (x y : Fin 10) (p : Fin 10 × Fin 10),
      getCell (inner r x y) p ≠ getCell r p → ∃ t ∈ neighbours x y, Sprout b r t p) :
    ∀ (ns : List (Fin 10 × Fin 10)) (r : Board) (p : Fin 10 × Fin 10),
      getCell (revealLoop b inner r ns) p ≠ getCell r p → ∃ t ∈ ns, Sprout b r t p := by
  intro ns
  induction ns with
  | nil => intro r p hch; rw [revealLoop_nil] at hch; exact absurd rfl hch
  | cons hd tl ih =>
    intro r p hch
    obtain ⟨x, y⟩ := hd
    rw [revealLoop_cons] at hch
    by_cases h : r y x = Cell.hidden
    · have hcond : ¬ (r y x ≠ Cell.hidden) := by simp [h]
      rw [if_neg hcond] at hch
      have hsubset : ∀ c : Fin 10 × Fin 10,
          getCell (setCell r y x (b y x)) c = Cell.hidden → getCell r c = Cell.hidden :=
        fun c hc => evolves_hidden_sub (evolves_set h) c hc
      by_cases hb : b y x = Cell.num 0
      · rw [if_pos hb] at hch
        by_cases h1 : getCell (inner (setCell r y x (b y x)) x y) p = getCell r p
        · have hch' : getCell (revealLoop b inner (inner (setCell r y x (b y x)) x y) tl) p
              ≠ getCell (inner (setCell r y x (b y x)) x y) p := by
            rw [h1]; exact hch
          obtain ⟨t, ht, hs⟩ := ih _ p hch'
          have hsub2 : ∀ c : Fin 10 × Fin 10,
              getCell (inner (setCell r y x (b y x)) x y) c = Cell.hidden →
                getCell r c = Cell.hidden :=
            fun c hc => hsubset c (evolves_hidden_sub (hev _ x y) c hc)
          exact ⟨t, List.mem_cons_of_mem _ ht, sprout_mono hsub2 hs⟩
        · by_cases hpxy : p = (x, y)
          · exact ⟨(x, y), List.mem_cons_self _ _, hpxy ▸ Sprout.refl p⟩
          · have h1' : getCell (inner (setCell r y x (b y x)) x y) p
                ≠ getCell (setCell r y x (b y x)) p := by
              rw [getCell_setCell_ne r y x _ p hpxy]; exact h1
            obtain ⟨t', ht', hs'⟩ := hiS _ x y p h1'
            refine ⟨(x, y), List.mem_cons_self _ _, Sprout.step (x, y) t' p h hb ht' ?_⟩
            exact sprout_mono hsubset hs'
      · rw [if_neg hb] at hch
        by_cases h1 : getCell (setCell r y x (b y x)) p = getCell r p
        · have hch' : getCell (revealLoop b inner (setCell r y x (b y x)) tl) p
              ≠ getCell (setCell r y x (b y x)) p := by
            rw [h1]; exact hch
          obtain ⟨t, ht, hs⟩ := ih _ p hch'
          exact ⟨t, List.mem_cons_of_mem _ ht, sprout_mono hsubset hs⟩
        · by_cases hpxy : p = (x, y)
          · exact ⟨(x, y), List.mem_cons_self _ _, hpxy ▸ Sprout.refl p⟩
          · exact absurd (getCell_setCell_ne r y x _ p hpxy) h1
    · rw [if_pos h] at hch
      obtain ⟨t, ht, hs⟩ := ih r p hch
      exact ⟨t, List.mem_cons_of_mem _ ht, hs⟩

theorem revealZerosF_sound (b : Board) :
    ∀ (fuel : Nat) (r : Board) (x y : Fin 10) (p : Fin 10 × Fin 10),
      getCell (revealZerosF b fuel r x y) p ≠ getCell r p →
      ∃ t ∈ neighbours x y, Sprout b r t p := by
  intro fuel
  induction fuel with
  | zero => intro r x y p hch; rw [revealZerosF_zero] at hch; exact absurd rfl hch
  | succ k ih =>
    intro r x y p hch
    rw [revealZerosF_succ] at hch
    exact revealLoop_sound b _ (fun r' x' y' => revealZerosF_evolves b k r' x' y')
      (fun r' x' y' p' => ih r' x' y' p') _ r p hch

/-- Along any chain the fill can follow, reachability of the chain's head in
a closed result propagates to its end. -/
theorem sprout_reach {b R r1 : Board} (hQ : FillClosed b R r1) :
    ∀ {t p : Fin 10 × Fin 10}, Sprout b r1 t p →
      getCell R t ≠ Cell.hidden → getCell R p ≠ Cell.hidden := by
  intro t p hs
  induction hs with
  | refl t => exact fun h => h
  | step t t' q hhid hz hmem _ ih => exact fun ht => ih (hQ t hhid ht hz t' hmem)

/-- Claim C4.  Flood fill reveals exactly the reachable set: starting from a
cell `(x, y)` whose board value is `Number(0)` (already written into the
grid, as `reveal_one` does before calling `reveal_zeros`), a cell `q` ends
up holding its board value exactly when it was hidden and reachable — that
is, `q` is a neighbour of the start or is reached through a chain of
still-hidden zero cells (boundary cells are revealed but not recursed into);
every other cell, in particular every `Flagged` or already revealed cell, is
left untouched, so flags block propagation through them. -/
theorem c4_flood_fill_exact (b r : Board) (x y : Fin 10)
    (hwf : wellFormed b) (h0 : b y x = Cell.num 0) (q : Fin 10 × Fin 10) :
    ((getCell (setCell r y x (b y x)) q = Cell.hidden ∧
        FloodReach b (setCell r y x (b y x)) x y q) →
      getCell (reveal_zeros (setCell r y x (b y x)) b x y) q = getCell b q) ∧
    (¬ (getCell (setCell r y x (b y x)) q = Cell.hidden ∧
        FloodReach b (setCell r y x (b y x)) x y q) →
      getCell (reveal_zeros (setCell r y x (b y x)) b x y) q
        = getCell (setCell r y x (b y x)) q) := by
  have hev : Evolves b (setCell r y x (b y x)) (reveal_zeros (setCell r y x (b y x)) b x y) :=
    revealZerosF_evolves b 101 _ x y
  have hQ : FillClosed b (reveal_zeros (setCell r y x (b y x)) b x y) (setCell r y x (b y x)) :=
    revealZerosF_closed b hwf 101 _ x y
      (lt_of_le_of_lt (hiddenCount_le_100 _) (by omega))
  constructor
  · rintro ⟨hhid, t, htmem, hsprout⟩
    have hRt : getCell (reveal_zeros (setCell r y x (b y x)) b x y) t ≠ Cell.hidden :=
      revealZerosF_mem_not_hidden b hwf 100 _ x y t htmem
    have hRq : getCell (reveal_zeros (setCell r y x (b y x)) b x y) q ≠ Cell.hidden :=
      sprout_reach hQ hsprout hRt
    have hch : getCell (reveal_zeros (setCell r y x (b y x)) b x y) q
        ≠ getCell (setCell r y x (b y x)) q := by
      rw [hhid]; exact hRq
    exact (evolves_changed hev q hch).2
  · intro hn
    by_cases hhid : getCell (setCell r y x (b y x)) q = Cell.hidden
    · by_contra hne
      obtain ⟨t, ht, hs⟩ := revealZerosF_sound b 101 _ x y q hne
      exact hn ⟨hhid, t, ht, hs⟩
    · exact evolves_pres hev q hhid

/-- Witness for C4 at a concrete input: the all-zero board is well formed
and has a zero at the start cell. -/
theorem c4_flood_fill_exact_witness :
    (wellFormed zeroBoard ∧ zeroBoard 0 0 = Cell.num 0) ∧
    (((getCell (setCell hiddenBoard 0 0 (zeroBoard 0 0)) (5, 5) = Cell.hidden ∧
        FloodReach zeroBoard (setCell hiddenBoard 0 0 (zeroBoard 0 0)) 0 0 (5, 5)) →
      getCell (reveal_zeros (setCell hiddenBoard 0 0 (zeroBoard 0 0)) zeroBoard 0 0) (5, 5)
        = getCell zeroBoard (5, 5)) ∧
    (¬ (getCell (setCell hiddenBoard 0 0 (zeroBoard 0 0)) (5, 5) = Cell.hidden ∧
        FloodReach zeroBoard (setCell hiddenBoard 0 0 (zeroBoard 0 0)) 0 0 (5, 5)) →
      getCell (reveal_zeros (setCell hiddenBoard 0 0 (zeroBoard 0 0)) zeroBoard 0 0) (5, 5)
        = getCell (setCell hiddenBoard 0 0 (zeroBoard 0 0)) (5, 5))) :=
  ⟨⟨by decide, rfl⟩, c4_flood_fill_exact zeroBoard hiddenBoard 0 0 (by decide) rfl (5, 5)⟩

/-! ## Board generation: the counting pass -/

theorem fill_step_mk (acc : Board) (px py : Fin 10) :
    fill_step acc (px, py) =
      if getCell acc (px, py) = Cell.number then
        setCell acc py px (Cell.num (count_bombs acc px py))
      else acc := rfl

theorem fill_step_ne (acc : Board) (p q : Fin 10 × Fin 10) (h : q ≠ p) :
    getCell (fill_step acc p) q = getCell acc q := by
  obtain ⟨px, py⟩ := p
  rw [fill_step_mk]
  by_cases hnum : getCell acc (px, py) = Cell.number
  · rw [if_pos hnum, getCell_setCell_ne _ _ _ _ q h]
  · rw [if_neg hnum]

/-- A fill step neither creates nor destroys a bomb. -/
theorem fill_step_bomb (acc : Board) (p q : Fin 10 × Fin 10) :
    (getCell (fill_step acc p) q = Cell.bomb ↔ getCell acc q = Cell.bomb) := by
  obtain ⟨px, py⟩ := p
  rw [fill_step_mk]
  by_cases hnum : getCell acc (px, py) = Cell.number
  · rw [if_pos hnum]
    by_cases hq : q = (px, py)
    · subst hq
      rw [getCell_setCell_self, hnum]
      constructor
      · intro hc; cases hc
      · intro hc; cases hc
    · rw [getCell_setCell_ne _ _ _ _ q hq]
  · rw [if_neg hnum]

theorem fill_step_keep (acc : Board) (p q : Fin 10 × Fin 10)
    (h : getCell acc q ≠ Cell.number) : getCell (fill_step acc p) q = getCell acc q := by
  by_cases hq : q = p
  · subst hq
    obtain ⟨qx, qy⟩ := q
    rw [fill_step_mk, if_neg h]
  · exact fill_step_ne acc p q hq

theorem foldl_fill_bomb (l : List (Fin 10 × Fin 10)) :
    ∀ (acc : Board) (q : Fin 10 × Fin 10),
      (getCell (l.foldl fill_step acc) q = Cell.bomb ↔ getCell acc q = Cell.bomb) := by
  induction l with
  | nil => intro acc q; rw [List.foldl_nil]
  | cons hd tl ih =>
    intro acc q
    rw [List.foldl_cons]
    exact (ih (fill_step acc hd) q).trans (fill_step_bomb acc hd q)

theorem foldl_fill_not_mem (l : List (Fin 10 × Fin 10)) :
    ∀ (acc : Board) (q : Fin 10 × Fin 10), q ∉ l →
      getCell (l.foldl fill_step acc) q = getCell acc q := by
  induction l with
  | nil => intro acc q _; rw [List.foldl_nil]
  | cons hd tl ih =>
    intro acc q hq
    rw [List.foldl_cons, ih _ q (fun hc => hq (List.mem_cons_of_mem _ hc)),
      fill_step_ne acc hd q (fun hc => hq (hc ▸ List.mem_cons_self _ _))]

theorem foldl_fill_keep (l : List (Fin 10 × Fin 10)) :
    ∀ (acc : Board) (q : Fin 10 × Fin 10), getCell acc q ≠ Cell.number →
      getCell (l.foldl fill_step acc) q = getCell acc q := by
  induction l with
  | nil => intro acc q _; rw [List.foldl_nil]
  | cons hd tl ih =>
    intro acc q hq
    have h1 : getCell (fill_step acc hd) q = getCell acc q := fill_step_keep acc hd q hq
    rw [List.foldl_cons, ih _ q (h1 ▸ hq), h1]

theorem count_bombs_congr (b1 b2 : Board)
    (h : ∀ q : Fin 10 × Fin 10, getCell b1 q = Cell.bomb ↔ getCell b2 q = Cell.bomb)
    (x y : Fin 10) : count_bombs b1 x y = count_bombs b2 x y := by
  unfold count_bombs
  congr 1
  apply List.filter_congr
  intro a _
  exact decide_eq_decide.mpr (h a)

/-- The heart of the counting pass: a placeholder cell of a duplicate-free
batch ends up holding the bomb count the board had when the batch started. -/
theorem foldl_fill_number (l : List (Fin 10 × Fin 10)) :
    l.Nodup → ∀ (acc : Board) (q : Fin 10 × Fin 10), q ∈ l →
      getCell acc q = Cell.number →
      getCell (l.foldl fill_step acc) q = Cell.num (count_bombs acc q.1 q.2) := by
  induction l with
  | nil => intro _ acc q hq; cases hq
  | cons hd tl ih =>
    intro hnd acc q hq hnum
    have hnd' := List.nodup_cons.mp hnd
    rw [List.foldl_cons]
    rcases List.mem_cons.mp hq with hq1 | hq1
    · subst hq1
      rw [foldl_fill_not_mem tl _ q hnd'.1]
      obtain ⟨qx, qy⟩ := q
      rw [fill_step_mk, if_pos hnum, getCell_setCell_self]
    · have hne : q ≠ hd := fun hc => hnd'.1 (hc ▸ hq1)
      have hnum' : getCell (fill_step acc hd) q = Cell.number := by
        rw [fill_step_ne acc hd q hne]; exact hnum
      rw [ih hnd'.2 _ q hq1 hnum']
      rw [count_bombs_congr _ _ (fun c => fill_step_bomb acc hd c) q.1 q.2]

theorem initial_board_cases (bc : ℚ) (draws : Fin 10 → Fin 10 → ℚ) (q : Fin 10 × Fin 10) :
    getCell (initial_board bc draws) q = Cell.bomb ∨
      getCell (initial_board bc draws) q = Cell.number := by
  unfold initial_board getCell
  by_cases h : draws q.2 q.1 ≤ bc
  · exact Or.inl (if_pos h)
  · exact Or.inr (if_neg h)

/-- A generated cell is a bomb exactly when its uniform draw classified it
as one. -/
theorem generate_board_bomb_iff (bc : ℚ) (draws : Fin 10 → Fin 10 → ℚ)
    (q : Fin 10 × Fin 10) :
    getCell (generate_board bc draws) q = Cell.bomb ↔
      getCell (initial_board bc draws) q = Cell.bomb := by
  unfold generate_board fill_numbers
  exact foldl_fill_bomb allCoords (initial_board bc draws) q

/-- Pointwise characterisation of `generate_board`: bombs stay, placeholders
become the bomb count taken over the classified grid. -/
theorem generate_board_eq (bc : ℚ) (draws : Fin 10 → Fin 10 → ℚ) (q : Fin 10 × Fin 10) :
    getCell (generate_board bc draws) q =
      if getCell (initial_board bc draws) q = Cell.number then
        Cell.num (count_bombs (initial_board bc draws) q.1 q.2)
      else getCell (initial_board bc draws) q := by
  unfold generate_board fill_numbers
  by_cases h : getCell (initial_board bc draws) q = Cell.number
  · rw [if_pos h, foldl_fill_number allCoords allCoords_nodup _ q (mem_allCoords q) h]
  · rw [if_neg h, foldl_fill_keep allCoords _ q h]

/-! ## Relating the code's neighbour count to the spec's -/

theorem length_filter_toFinset (l : List (Fin 10 × Fin 10)) (hl : l.Nodup)
    (p : Fin 10 × Fin 10 → Bool) :
    (l.filter p).length = (l.toFinset.filter (fun a => p a = true)).card := by
  induction l with
  | nil => simp
  | cons a t ih =>
    have hnd := List.nodup_cons.mp hl
    rw [List.filter_cons, List.toFinset_cons, Finset.filter_insert]
    by_cases hpa : p a = true
    · rw [if_pos hpa, if_pos hpa, List.length_cons, ih hnd.2,
        Finset.card_insert_of_not_mem]
      intro hmem
      exact hnd.1 (List.mem_toFinset.mp (Finset.mem_of_mem_filter a hmem))
    · rw [if_neg hpa, if_neg hpa, ih hnd.2]

theorem neighbours_toFinset (x y : Fin 10) :
    (neighbours x y).toFinset
      = Finset.univ.filter (fun p : Fin 10 × Fin 10 => adj x y p) := by
  ext p
  simp [List.mem_toFinset, mem_neighbours]

/-- On a board whose cell at `(x, y)` is not a bomb, the code's count over
`get_neighbours` (which includes the cell itself) equals the spec's count
over the 8 proper neighbours. -/
theorem count_bombs_spec (b : Board) (x y : Fin 10)
    (hself : getCell b (x, y) ≠ Cell.bomb) :
    count_bombs b x y = spec_bomb_count b x y := by
  unfold count_bombs spec_bomb_count
  rw [length_filter_toFinset _ (neighbours_nodup x y) _, neighbours_toFinset x y,
    Finset.filter_filter]
  congr 1
  ext p
  simp only [Finset.mem_filter, Finset.mem_univ, true_and]
  constructor
  · rintro ⟨hadj, hbomb⟩
    have hb : getCell b p = Cell.bomb := of_decide_eq_true hbomb
    exact ⟨fun hpe => hself (hpe ▸ hb), hadj, hb⟩
  · rintro ⟨hne, hadj, hb⟩
    exact ⟨hadj, decide_eq_true hb⟩

theorem spec_bomb_count_congr (b1 b2 : Board)
    (h : ∀ q : Fin 10 × Fin 10, getCell b1 q = Cell.bomb ↔ getCell b2 q = Cell.bomb)
    (x y : Fin 10) : spec_bomb_count b1 x y = spec_bomb_count b2 x y := by
  unfold spec_bomb_count
  congr 1
  ext p
  simp only [Finset.mem_filter, Finset.mem_univ, true_and]
  rw [and_congr_right_iff, and_congr_right_iff]
  intro _ _
  exact h p

/-- Claim C2.  On every generated board — any bomb probability, any per-cell
draws — every non-bomb cell holds `Number(k)` where `k` is the exact count
of `Bomb` cells among its 8-directional neighbours, clipped at the board
edges and not counting the cell itself. -/
theorem c2_number_cells_count_neighbours (bc : ℚ) (draws : Fin 10 → Fin 10 → ℚ)
    (x y : Fin 10) (h : getCell (generate_board bc draws) (x, y) ≠ Cell.bomb) :
    getCell (generate_board bc draws) (x, y)
      = Cell.num (spec_bomb_count (generate_board bc draws) x y) := by
  have hinit : getCell (initial_board bc draws) (x, y) = Cell.number := by
    rcases initial_board_cases bc draws (x, y) with hc | hc
    · exact absurd ((generate_board_bomb_iff bc draws (x, y)).mpr hc) h
    · exact hc
  rw [generate_board_eq bc draws (x, y), if_pos hinit]
  congr 1
  rw [count_bombs_spec (initial_board bc draws) x y
    (fun hc => by rw [hinit] at hc; cases hc)]
  exact spec_bomb_count_congr _ _
    (fun q => (generate_board_bomb_iff bc draws q).symm) x y

/-- The draws used by concrete witnesses: a single bomb draw of `0` at
`(1, 1)`, everything else a draw of `2`, above any probability up to one. -/
def witnessDraws : Fin 10 → Fin 10 → ℚ := fun y x => if y = 1 ∧ x = 1 then 0 else 2

/-- Witness for C2 at a concrete input: the board drawn from `witnessDraws`
at probability `1` has a non-bomb cell at `(0, 0)`. -/
theorem c2_number_cells_count_neighbours_witness :
    getCell (generate_board 1 witnessDraws) ((0 : Fin 10), (0 : Fin 10)) ≠ Cell.bomb ∧
    getCell (generate_board 1 witnessDraws) (0, 0)
      = Cell.num (spec_bomb_count (generate_board 1 witnessDraws) 0 0) := by
  have h2 : ¬ getCell (initial_board 1 witnessDraws) ((0 : Fin 10), (0 : Fin 10))
      = Cell.bomb := by decide
  have h : getCell (generate_board 1 witnessDraws) ((0 : Fin 10), (0 : Fin 10))
      ≠ Cell.bomb :=
    fun hc => h2 ((generate_board_bomb_iff 1 witnessDraws ((0 : Fin 10), (0 : Fin 10))).mp hc)
  exact ⟨h, c2_number_cells_count_neighbours 1 witnessDraws 0 0 h⟩

/-! ## The win check and single reveals -/

theorem check_if_won_iff (revealed board : Board) :
    check_if_won revealed board = true ↔
      ∀ p : Fin 10 × Fin 10, getCell board p ≠ Cell.bomb →
        getCell revealed p ≠ Cell.hidden ∧ getCell revealed p ≠ Cell.flag := by
  unfold check_if_won
  constructor
  · intro h p hb
    have hne : ¬ ((getCell revealed p = Cell.hidden ∨ getCell revealed p = Cell.flag) ∧
        getCell board p ≠ Cell.bomb) := by
      intro hc
      have hany : allCoords.any (fun p =>
          decide ((getCell revealed p = Cell.hidden ∨ getCell revealed p = Cell.flag) ∧
            getCell board p ≠ Cell.bomb)) = true :=
        List.any_eq_true.mpr ⟨p, mem_allCoords p, decide_eq_true hc⟩
      rw [hany] at h
      cases h
    constructor
    · intro hh; exact hne ⟨Or.inl hh, hb⟩
    · intro hf; exact hne ⟨Or.inr hf, hb⟩
  · intro h
    rcases Bool.eq_false_or_eq_true (allCoords.any (fun p =>
        decide ((getCell revealed p = Cell.hidden ∨ getCell revealed p = Cell.flag) ∧
          getCell board p ≠ Cell.bomb))) with ht | hf
    · exfalso
      obtain ⟨p, _, hp⟩ := List.any_eq_true.mp ht
      obtain ⟨hor, hb⟩ := of_decide_eq_true hp
      rcases hor with hh | hfl
      · exact (h p hb).1 hh
      · exact (h p hb).2 hfl
    · rw [hf]; rfl

/-- Revealing a cell whose board value is a bomb gives `Lost`, always. -/
theorem reveal_one_bomb_lost (revealed board : Board) (x y : Fin 10)
    (h : board y x = Cell.bomb) :
    reveal_one revealed board x y = (setCell revealed y x (board y x), Outcome.lost) := by
  simp only [reveal_one]
  rw [if_pos h]

/-- The reveal of a non-bomb cell, as one explicit pair: the resulting grid
(with flood fill when the value is zero) and the outcome of the win check. -/
theorem reveal_one_pair (revealed board : Board) (x y : Fin 10)
    (h : board y x ≠ Cell.bomb) :
    reveal_one revealed board x y =
      ((if board y x = Cell.num 0
          then reveal_zeros (setCell revealed y x (board y x)) board x y
          else setCell revealed y x (board y x)),
        if check_if_won (if board y x = Cell.num 0
            then reveal_zeros (setCell revealed y x (board y x)) board x y
            else setCell revealed y x (board y x)) board
          then Outcome.won else Outcome.ongoing) := by
  simp only [reveal_one]
  rw [if_neg h]
  by_cases hb : board y x = Cell.num 0
  · rw [if_pos hb]
    by_cases hc : check_if_won
        (reveal_zeros (setCell revealed y x (board y x)) board x y) board = true
    · rw [if_pos hc, if_pos hc]
    · rw [if_neg hc, if_neg hc]
  · rw [if_neg hb]
    by_cases hc : check_if_won (setCell revealed y x (board y x)) board = true
    · rw [if_pos hc, if_pos hc]
    · rw [if_neg hc, if_neg hc]

theorem reveal_one_fst_not_bomb (revealed board : Board) (x y : Fin 10)
    (h : board y x ≠ Cell.bomb) :
    (reveal_one revealed board x y).1
      = if board y x = Cell.num 0
          then reveal_zeros (setCell revealed y x (board y x)) board x y
          else setCell revealed y x (board y x) := by
  rw [reveal_one_pair revealed board x y h]

theorem reveal_one_snd_won (revealed board : Board) (x y : Fin 10)
    (h : board y x ≠ Cell.bomb) :
    ((reveal_one revealed board x y).2 = Outcome.won
      ↔ check_if_won (reveal_one revealed board x y).1 board = true) := by
  rw [reveal_one_pair revealed board x y h]
  by_cases hc : check_if_won (if board y x = Cell.num 0
      then reveal_zeros (setCell revealed y x (board y x)) board x y
      else setCell revealed y x (board y x)) board = true
  · rw [if_pos hc]
    exact ⟨fun _ => hc, fun _ => rfl⟩
  · rw [if_neg hc]
    exact ⟨fun he => (nomatch he), fun hc2 => absurd hc2 hc⟩

/-! ## Batched reveals -/

theorem reveal_list_nil (board revealed : Board) :
    reveal_list board revealed [] = (revealed, false) := rfl

theorem reveal_list_cons (board revealed : Board) (x y : Fin 10)
    (rest : List (Fin 10 × Fin 10)) :
    reveal_list board revealed ((x, y) :: rest)
      = if (reveal_one revealed board x y).2 ≠ Outcome.ongoing then (board, true)
        else reveal_list board (reveal_one revealed board x y).1 rest := rfl

theorem reveal_list_cons_ended (board revealed : Board) (x y : Fin 10)
    (rest : List (Fin 10 × Fin 10)) (h : (reveal_one revealed board x y).2 ≠ Outcome.ongoing) :
    reveal_list board revealed ((x, y) :: rest) = (board, true) := by
  rw [reveal_list_cons, if_pos h]

theorem reveal_list_cons_ongoing (board revealed : Board) (x y : Fin 10)
    (rest : List (Fin 10 × Fin 10)) (h : (reveal_one revealed board x y).2 = Outcome.ongoing) :
    reveal_list board revealed ((x, y) :: rest)
      = reveal_list board (reveal_one revealed board x y).1 rest := by
  rw [reveal_list_cons, if_neg (fun hc => hc h)]

/-- Claim C5.  Revealing a bomb always yields `Lost`; the first coordinate
of a batch whose reveal ends the game (`Lost` or `Won`) makes the command
return the full board as the disclosed grid, ignore every remaining
coordinate, and delete the player's record from the store. -/
theorem c5_terminal_batch :
    (∀ (revealed board : Board) (x y : Fin 10), board y x = Cell.bomb →
        (reveal_one revealed board x y).2 = Outcome.lost) ∧
    (∀ (board revealed : Board) (x y : Fin 10) (rest : List (Fin 10 × Fin 10)),
        (reveal_one revealed board x y).2 ≠ Outcome.ongoing →
        reveal_list board revealed ((x, y) :: rest) = (board, true)) ∧
    (∀ (games : GamesDict) (pid : Nat) (g : Game) (coords : List (Fin 10 × Fin 10)),
        games pid = some g → (reveal_list g.board g.revealed coords).2 = true →
        reveal_command games pid coords pid = none) := by
  refine ⟨?_, ?_, ?_⟩
  · intro revealed board x y h
    rw [reveal_one_bomb_lost revealed board x y h]
  · intro board revealed x y rest h
    exact reveal_list_cons_ended board revealed x y rest h
  · intro games pid g coords hg hend
    unfold reveal_command
    simp [hg, hend, updateStore]

/-- The all-bomb grid, used by concrete witnesses. -/
def bombBoard : Board := fun _ _ => Cell.bomb

/-- The single-record store used by concrete witnesses. -/
def witnessGames : GamesDict :=
  fun p => if p = 7 then some { board := bombBoard, revealed := hiddenBoard } else none

/-- Witness for C5 at a concrete input: a bomb at `(0, 0)` loses at once,
the second batch coordinate is discarded, and the record disappears. -/
theorem c5_terminal_batch_witness :
    bombBoard 0 0 = Cell.bomb ∧
    (reveal_one hiddenBoard bombBoard 0 0).2 = Outcome.lost ∧
    reveal_list bombBoard hiddenBoard [(0, 0), (1, 1)] = (bombBoard, true) ∧
    witnessGames 7 = some { board := bombBoard, revealed := hiddenBoard } ∧
    reveal_command witnessGames 7 [(0, 0), (1, 1)] 7 = none := by
  have h1 : bombBoard 0 0 = Cell.bomb := rfl
  have h2 : (reveal_one hiddenBoard bombBoard 0 0).2 = Outcome.lost :=
    c5_terminal_batch.1 hiddenBoard bombBoard 0 0 h1
  have h3 : (reveal_one hiddenBoard bombBoard 0 0).2 ≠ Outcome.ongoing := by
    rw [h2]; intro hc; cases hc
  have h4 : reveal_list bombBoard hiddenBoard [(0, 0), (1, 1)] = (bombBoard, true) :=
    c5_terminal_batch.2.1 bombBoard hiddenBoard 0 0 [(1, 1)] h3
  have h5 : witnessGames 7 = some { board := bombBoard, revealed := hiddenBoard } := rfl
  have h6 : (reveal_list bombBoard hiddenBoard [(0, 0), (1, 1)]).2 = true := by
    rw [h4]
  exact ⟨h1, h2, h4, h5,
    c5_terminal_batch.2.2 witnessGames 7 { board := bombBoard, revealed := hiddenBoard }
      [(0, 0), (1, 1)] h5 h6⟩

/-! ## The win condition (C3) -/

/-- Claim C3, amended: for a reveal step whose target cell is not a bomb
(a bomb step yields `Lost` regardless of the rest of the grid), the outcome
is `Won` exactly when, after the step and any flood fill, no non-bomb cell
is still `Hidden` or `Flagged`; hidden or flagged bombs do not prevent the
win. -/
theorem c3_win_iff_nonbombs_revealed (revealed board : Board) (x y : Fin 10)
    (h : board y x ≠ Cell.bomb) :
    ((reveal_one revealed board x y).2 = Outcome.won ↔
      ∀ p : Fin 10 × Fin 10, getCell board p ≠ Cell.bomb →
        getCell (reveal_one revealed board x y).1 p ≠ Cell.hidden ∧
        getCell (reveal_one revealed board x y).1 p ≠ Cell.flag) := by
  rw [reveal_one_snd_won revealed board x y h]
  exact check_if_won_iff _ board

/-- Witness for the amended C3 at a concrete input. -/
theorem c3_win_iff_nonbombs_revealed_witness :
    zeroBoard 0 0 ≠ Cell.bomb ∧
    ((reveal_one hiddenBoard zeroBoard 0 0).2 = Outcome.won ↔
      ∀ p : Fin 10 × Fin 10, getCell zeroBoard p ≠ Cell.bomb →
        getCell (reveal_one hiddenBoard zeroBoard 0 0).1 p ≠ Cell.hidden ∧
        getCell (reveal_one hiddenBoard zeroBoard 0 0).1 p ≠ Cell.flag) :=
  ⟨by decide, c3_win_iff_nonbombs_revealed hiddenBoard zeroBoard 0 0 (by decide)⟩

/-- Counterexample to C3 as stated: its "if and only if" fails on a bomb
reveal.  With bomb probability `1` every draw classifies every cell as a
bomb; revealing `(0, 0)` then yields `Lost`, not `Won`, although every
non-bomb cell of the board (there are none) is revealed. -/
theorem c3_counterexample :
    (reveal_one hiddenBoard (generate_board 1 (fun _ _ => 0)) 0 0).2 = Outcome.lost ∧
    (∀ p : Fin 10 × Fin 10, getCell (generate_board 1 (fun _ _ => 0)) p ≠ Cell.bomb →
      getCell (reveal_one hiddenBoard (generate_board 1 (fun _ _ => 0)) 0 0).1 p ≠ Cell.hidden ∧
      getCell (reveal_one hiddenBoard (generate_board 1 (fun _ _ => 0)) 0 0).1 p ≠ Cell.flag) ∧
    ¬ ((reveal_one hiddenBoard (generate_board 1 (fun _ _ => 0)) 0 0).2 = Outcome.won ↔
      ∀ p : Fin 10 × Fin 10, getCell (generate_board 1 (fun _ _ => 0)) p ≠ Cell.bomb →
        getCell (reveal_one hiddenBoard (generate_board 1 (fun _ _ => 0)) 0 0).1 p ≠ Cell.hidden ∧
        getCell (reveal_one hiddenBoard (generate_board 1 (fun _ _ => 0)) 0 0).1 p ≠ Cell.flag) := by
  have hbomb : ∀ q : Fin 10 × Fin 10,
      getCell (generate_board 1 (fun _ _ => 0)) q = Cell.bomb := by
    intro q
    rw [generate_board_bomb_iff]
    show (if (0 : ℚ) ≤ 1 then Cell.bomb else Cell.number) = Cell.bomb
    rw [if_pos (by decide)]
  have hlost : (reveal_one hiddenBoard (generate_board 1 (fun _ _ => 0)) 0 0).2
      = Outcome.lost := by
    rw [reveal_one_bomb_lost hiddenBoard (generate_board 1 (fun _ _ => 0)) 0 0
      (hbomb ((0 : Fin 10), (0 : Fin 10)))]
  have hall : ∀ p : Fin 10 × Fin 10,
      getCell (generate_board 1 (fun _ _ => 0)) p ≠ Cell.bomb →
      getCell (reveal_one hiddenBoard (generate_board 1 (fun _ _ => 0)) 0 0).1 p ≠ Cell.hidden ∧
      getCell (reveal_one hiddenBoard (generate_board 1 (fun _ _ => 0)) 0 0).1 p ≠ Cell.flag :=
    fun p hp => absurd (hbomb p) hp
  refine ⟨hlost, hall, ?_⟩
  intro hiff
  have hwon := hiff.mpr hall
  rw [hlost] at hwon
  cases hwon

/-! ## The zero-probability game (C7) -/

theorem initial_board_pos_number (draws : Fin 10 → Fin 10 → ℚ)
    (hpos : ∀ y x : Fin 10, 0 < draws y x) (q : Fin 10 × Fin 10) :
    getCell (initial_board 0 draws) q = Cell.number := by
  unfold initial_board getCell
  exact if_neg (not_le.mpr (hpos q.2 q.1))

/-- With bomb probability `0` and no draw hitting exactly `0`, the generated
board is all zeros. -/
theorem generate_board_zero (draws : Fin 10 → Fin 10 → ℚ)
    (hpos : ∀ y x : Fin 10, 0 < draws y x) :
    generate_board 0 draws = zeroBoard := by
  funext y x
  show getCell (generate_board 0 draws) (x, y) = Cell.num 0
  rw [generate_board_eq, if_pos (initial_board_pos_number draws hpos (x, y))]
  congr 1
  unfold count_bombs
  rw [List.length_eq_zero]
  apply List.filter_eq_nil_iff.mpr
  intro a _
  simp [initial_board_pos_number draws hpos a]

/-- One king-move from `a` toward `b` on a rank of ten squares. -/
def stepToward (a b : Fin 10) : Fin 10 :=
  if h : a.val < b.val then ⟨a.val + 1, by have hb := b.isLt; omega⟩
  else if h2 : b.val < a.val then ⟨a.val - 1, by have ha := a.isLt; omega⟩
  else a

theorem stepToward_adj : ∀ t1 t2 q1 q2 : Fin 10,
    adj t1 t2 (stepToward t1 q1, stepToward t2 q2) := by decide

theorem stepToward_dist : ∀ a b : Fin 10,
    Nat.dist (stepToward a b).val b.val ≤ Nat.dist a.val b.val - 1 := by decide

theorem stepToward_zero : ∀ a b : Fin 10, (stepToward a b).val = 0 → b.val = 0 := by
  decide

theorem fin_dist_zero : ∀ a b : Fin 10, Nat.dist a.val b.val ≤ 0 → a = b := by decide

theorem fin_dist_le9 : ∀ a b : Fin 10, Nat.dist a.val b.val ≤ 9 := by decide

theorem startRevealed_hidden (q : Fin 10 × Fin 10)
    (h : q ≠ ((0 : Fin 10), (0 : Fin 10))) :
    getCell (setCell hiddenBoard 0 0 (zeroBoard 0 0)) q = Cell.hidden := by
  rw [getCell_setCell_ne _ _ _ _ q h]; rfl

/-- On the all-zero board with only the origin revealed, a king-move
staircase is a fill chain: every cell is `Sprout`-reachable from any
non-origin cell within its Chebyshev distance. -/
theorem sprout_staircase :
    ∀ (n : Nat) (t q : Fin 10 × Fin 10), q ≠ ((0 : Fin 10), (0 : Fin 10)) →
      t ≠ ((0 : Fin 10), (0 : Fin 10)) →
      Nat.dist t.1.val q.1.val ≤ n → Nat.dist t.2.val q.2.val ≤ n →
      Sprout zeroBoard (setCell hiddenBoard 0 0 (zeroBoard 0 0)) t q := by
  intro n
  induction n with
  | zero =>
    intro t q hq ht hd1 hd2
    have h1 : t.1 = q.1 := fin_dist_zero _ _ hd1
    have h2 : t.2 = q.2 := fin_dist_zero _ _ hd2
    have ht2 : t = q := Prod.ext_iff.mpr ⟨h1, h2⟩
    rw [ht2]
    exact Sprout.refl q
  | succ n ih =>
    intro t q hq ht hd1 hd2
    by_cases heq : t = q
    · rw [heq]; exact Sprout.refl q
    · have ht'ne : (stepToward t.1 q.1, stepToward t.2 q.2)
          ≠ ((0 : Fin 10), (0 : Fin 10)) := by
        intro hc
        apply hq
        have hc1 : (stepToward t.1 q.1).val = 0 := congrArg Fin.val (congrArg Prod.fst hc)
        have hc2 : (stepToward t.2 q.2).val = 0 := congrArg Fin.val (congrArg Prod.snd hc)
        exact Prod.ext_iff.mpr
          ⟨Fin.ext (stepToward_zero t.1 q.1 hc1), Fin.ext (stepToward_zero t.2 q.2 hc2)⟩
      have hmem : (stepToward t.1 q.1, stepToward t.2 q.2) ∈ neighbours t.1 t.2 :=
        (mem_neighbours t.1 t.2 _).mpr (stepToward_adj t.1 t.2 q.1 q.2)
      have hd1' : Nat.dist (stepToward t.1 q.1).val q.1.val ≤ n := by
        have hs := stepToward_dist t.1 q.1
        omega
      have hd2' : Nat.dist (stepToward t.2 q.2).val q.2.val ≤ n := by
        have hs := stepToward_dist t.2 q.2
        omega
      exact Sprout.step t _ q (startRevealed_hidden t ht) rfl hmem
        (ih _ q hq ht'ne hd1' hd2')

/-- The flood fill from the origin of the all-zero board reveals the whole
grid: every cell ends up showing `Number(0)`. -/
theorem zero_reveal_all (q : Fin 10 × Fin 10) :
    getCell (reveal_zeros (setCell hiddenBoard 0 0 (zeroBoard 0 0)) zeroBoard 0 0) q
      = Cell.num 0 := by
  have hwf : wellFormed zeroBoard := by decide
  have hev : Evolves zeroBoard (setCell hiddenBoard 0 0 (zeroBoard 0 0))
      (reveal_zeros (setCell hiddenBoard 0 0 (zeroBoard 0 0)) zeroBoard 0 0) :=
    revealZerosF_evolves zeroBoard 101 _ 0 0
  by_cases hq : q = ((0 : Fin 10), (0 : Fin 10))
  · subst hq
    have hnh : getCell (setCell hiddenBoard 0 0 (zeroBoard 0 0))
        ((0 : Fin 10), (0 : Fin 10)) ≠ Cell.hidden := by
      rw [getCell_setCell_self]
      exact fun hc => (nomatch hc)
    rw [evolves_pres hev _ hnh, getCell_setCell_self]
    rfl
  · have hhid : getCell (setCell hiddenBoard 0 0 (zeroBoard 0 0)) q = Cell.hidden :=
      startRevealed_hidden q hq
    have ht_ne : (stepToward 0 q.1, stepToward 0 q.2) ≠ ((0 : Fin 10), (0 : Fin 10)) := by
      intro hc
      apply hq
      have hc1 : (stepToward 0 q.1).val = 0 := congrArg Fin.val (congrArg Prod.fst hc)
      have hc2 : (stepToward 0 q.2).val = 0 := congrArg Fin.val (congrArg Prod.snd hc)
      exact Prod.ext_iff.mpr
        ⟨Fin.ext (stepToward_zero 0 q.1 hc1), Fin.ext (stepToward_zero 0 q.2 hc2)⟩
    have htmem : (stepToward 0 q.1, stepToward 0 q.2) ∈ neighbours 0 0 :=
      (mem_neighbours 0 0 _).mpr (stepToward_adj 0 0 q.1 q.2)
    have hsp : Sprout zeroBoard (setCell hiddenBoard 0 0 (zeroBoard 0 0))
        (stepToward 0 q.1, stepToward 0 q.2) q :=
      sprout_staircase 9 _ q hq ht_ne (fin_dist_le9 _ _) (fin_dist_le9 _ _)
    have hRt : getCell (reveal_zeros (setCell hiddenBoard 0 0 (zeroBoard 0 0)) zeroBoard 0 0)
        (stepToward 0 q.1, stepToward 0 q.2) ≠ Cell.hidden :=
      revealZerosF_mem_not_hidden zeroBoard hwf 100 _ 0 0 _ htmem
    have hQ : FillClosed zeroBoard
        (reveal_zeros (setCell hiddenBoard 0 0 (zeroBoard 0 0)) zeroBoard 0 0)
        (setCell hiddenBoard 0 0 (zeroBoard 0 0)) :=
      revealZerosF_closed zeroBoard hwf 101 _ 0 0
        (lt_of_le_of_lt (hiddenCount_le_100 _) (by omega))
    have hRq : getCell (reveal_zeros (setCell hiddenBoard 0 0 (zeroBoard 0 0)) zeroBoard 0 0) q
        ≠ Cell.hidden := sprout_reach hQ hsp hRt
    have hch : getCell (reveal_zeros (setCell hiddenBoard 0 0 (zeroBoard 0 0)) zeroBoard 0 0) q
        ≠ getCell (setCell hiddenBoard 0 0 (zeroBoard 0 0)) q := by
      rw [hhid]; exact hRq
    exact (evolves_changed hev q hch).2

/-- Claim C7, amended: the code compares `random() <= bomb_chance`, so a
draw of exactly `0.0` (possible under a uniform [0,1) draw) still produces a
bomb at probability `0`; for every sequence of strictly positive draws,
starting with bomb probability `0` gives the all-zero board, and revealing
`(0, 0)` flood-fills the entire board and wins the game. -/
theorem c7_zero_probability_wins (draws : Fin 10 → Fin 10 → ℚ)
    (hpos : ∀ y x : Fin 10, 0 < draws y x) :
    generate_board 0 draws = zeroBoard ∧
    (reveal_one hiddenBoard (generate_board 0 draws) 0 0).2 = Outcome.won ∧
    (∀ q : Fin 10 × Fin 10,
      getCell (reveal_one hiddenBoard (generate_board 0 draws) 0 0).1 q = Cell.num 0) ∧
    reveal_list (generate_board 0 draws) hiddenBoard [((0 : Fin 10), (0 : Fin 10))]
      = (generate_board 0 draws, true) := by
  have hzb := generate_board_zero draws hpos
  rw [hzb]
  have hnb : zeroBoard (0 : Fin 10) (0 : Fin 10) ≠ Cell.bomb := fun hc => (nomatch hc)
  have hfst : (reveal_one hiddenBoard zeroBoard 0 0).1
      = reveal_zeros (setCell hiddenBoard 0 0 (zeroBoard 0 0)) zeroBoard 0 0 := by
    rw [reveal_one_fst_not_bomb hiddenBoard zeroBoard 0 0 hnb,
      if_pos (show zeroBoard 0 0 = Cell.num 0 from rfl)]
  have hall : ∀ q : Fin 10 × Fin 10,
      getCell (reveal_one hiddenBoard zeroBoard 0 0).1 q = Cell.num 0 := by
    intro q
    rw [hfst]
    exact zero_reveal_all q
  have hwon : (reveal_one hiddenBoard zeroBoard 0 0).2 = Outcome.won := by
    rw [reveal_one_snd_won hiddenBoard zeroBoard 0 0 hnb, check_if_won_iff]
    intro p _
    rw [hall p]
    exact ⟨fun hc => (nomatch hc), fun hc => (nomatch hc)⟩
  refine ⟨rfl, hwon, hall, ?_⟩
  apply reveal_list_cons_ended
  rw [hwon]
  intro hc
  cases hc

/-- Witness for the amended C7 at a concrete input: all draws equal to one. -/
theorem c7_zero_probability_wins_witness :
    (∀ y x : Fin 10, (0 : ℚ) < (fun _ _ => (1 : ℚ)) y x) ∧
    (generate_board 0 (fun _ _ => (1 : ℚ)) = zeroBoard ∧
    (reveal_one hiddenBoard (generate_board 0 (fun _ _ => (1 : ℚ))) 0 0).2 = Outcome.won ∧
    (∀ q : Fin 10 × Fin 10,
      getCell (reveal_one hiddenBoard (generate_board 0 (fun _ _ => (1 : ℚ))) 0 0).1 q
        = Cell.num 0) ∧
    reveal_list (generate_board 0 (fun _ _ => (1 : ℚ))) hiddenBoard
        [((0 : Fin 10), (0 : Fin 10))]
      = (generate_board 0 (fun _ _ => (1 : ℚ)), true)) :=
  ⟨by decide, c7_zero_probability_wins (fun _ _ => (1 : ℚ)) (by decide)⟩

/-- Counterexample to C7 as stated: the all-zero draw sequence lies in
[0,1) cell by cell, yet with bomb probability `0` the comparison
`random() <= bomb_chance` classifies every cell as a bomb, and revealing
`(0, 0)` loses instead of winning. -/
theorem c7_counterexample :
    (∀ y x : Fin 10, (0 : ℚ) ≤ (fun _ _ => (0 : ℚ)) y x ∧ ((fun _ _ => (0 : ℚ)) y x : ℚ) < 1) ∧
    getCell (generate_board 0 (fun _ _ => (0 : ℚ))) ((0 : Fin 10), (0 : Fin 10)) = Cell.bomb ∧
    (reveal_one hiddenBoard (generate_board 0 (fun _ _ => (0 : ℚ))) 0 0).2 = Outcome.lost ∧
    (reveal_one hiddenBoard (generate_board 0 (fun _ _ => (0 : ℚ))) 0 0).2 ≠ Outcome.won := by
  have hbomb : getCell (generate_board 0 (fun _ _ => (0 : ℚ))) ((0 : Fin 10), (0 : Fin 10))
      = Cell.bomb := by
    rw [generate_board_bomb_iff]
    show (if (0 : ℚ) ≤ 0 then Cell.bomb else Cell.number) = Cell.bomb
    rw [if_pos (by decide)]
  have hlost : (reveal_one hiddenBoard (generate_board 0 (fun _ _ => (0 : ℚ))) 0 0).2
      = Outcome.lost := by
    rw [reveal_one_bomb_lost hiddenBoard _ 0 0 hbomb]
  refine ⟨by decide, hbomb, hlost, ?_⟩
  rw [hlost]
  intro hc
  cases hc

/-! ## Display-state transitions (C6) -/

theorem flag_list_nil (revealed : Board) : flag_list revealed [] = revealed := rfl

theorem flag_list_cons (revealed : Board) (x y : Fin 10) (rest : List (Fin 10 × Fin 10)) :
    flag_list revealed ((x, y) :: rest)
      = flag_list (if revealed y x = Cell.hidden then setCell revealed y x Cell.flag
                   else revealed) rest := rfl

/-- Flagging only ever turns hidden cells into flags. -/
theorem flag_list_transitions :
    ∀ (coords : List (Fin 10 × Fin 10)) (r : Board) (q : Fin 10 × Fin 10),
      getCell (flag_list r coords) q = getCell r q ∨
      (getCell r q = Cell.hidden ∧ getCell (flag_list r coords) q = Cell.flag) := by
  intro coords
  induction coords with
  | nil => intro r q; exact Or.inl rfl
  | cons hd tl ih =>
    intro r q
    obtain ⟨x, y⟩ := hd
    rw [flag_list_cons]
    by_cases h : r y x = Cell.hidden
    · rw [if_pos h]
      rcases ih (setCell r y x Cell.flag) q with h1 | h1
      · by_cases hq : q = (x, y)
        · subst hq
          rw [h1, getCell_setCell_self]
          exact Or.inr ⟨h, rfl⟩
        · rw [h1, getCell_setCell_ne r y x Cell.flag q hq]
          exact Or.inl rfl
      · by_cases hq : q = (x, y)
        · subst hq
          exact Or.inr ⟨h, h1.2⟩
        · refine Or.inr ⟨?_, h1.2⟩
          rw [← getCell_setCell_ne r y x Cell.flag q hq]
          exact h1.1
    · rw [if_neg h]
      exact ih r q

/-- Writing the board value over the named cell, cell by cell: on a grid
coherent with its board, a cell is unchanged, or goes hidden-to-value, or is
the named cell itself going flag-to-value. -/
theorem set_target_transitions (b r : Board) (x y : Fin 10) (hcoh : coherent b r)
    (q : Fin 10 × Fin 10) :
    getCell (setCell r y x (b y x)) q = getCell r q ∨
    (getCell r q = Cell.hidden ∧ getCell (setCell r y x (b y x)) q = getCell b q) ∨
    (getCell r q = Cell.flag ∧ q = (x, y) ∧
      getCell (setCell r y x (b y x)) q = getCell b q) := by
  by_cases hq : q = (x, y)
  · subst hq
    rcases hcoh (x, y) with h | h | h
    · refine Or.inr (Or.inl ⟨h, ?_⟩)
      rw [getCell_setCell_self]; rfl
    · refine Or.inr (Or.inr ⟨h, rfl, ?_⟩)
      rw [getCell_setCell_self]; rfl
    · refine Or.inl ?_
      rw [getCell_setCell_self]
      exact h.symm
  · exact Or.inl (getCell_setCell_ne r y x _ q hq)

/-- One reveal step, cell by cell (bomb targets included): unchanged, or
hidden-to-value, or the directly targeted cell going flag-to-value. -/
theorem reveal_one_transitions (b r : Board) (x y : Fin 10) (hcoh : coherent b r)
    (q : Fin 10 × Fin 10) :
    getCell (reveal_one r b x y).1 q = getCell r q ∨
    (getCell r q = Cell.hidden ∧ getCell (reveal_one r b x y).1 q = getCell b q) ∨
    (getCell r q = Cell.flag ∧ q = (x, y) ∧
      getCell (reveal_one r b x y).1 q = getCell b q) := by
  by_cases hbomb : b y x = Cell.bomb
  · have hfst : (reveal_one r b x y).1 = setCell r y x (b y x) := by
      rw [reveal_one_bomb_lost r b x y hbomb]
    rw [hfst]
    exact set_target_transitions b r x y hcoh q
  · rw [reveal_one_fst_not_bomb r b x y hbomb]
    by_cases hz : b y x = Cell.num 0
    · rw [if_pos hz]
      have hev : Evolves b (setCell r y x (b y x))
          (reveal_zeros (setCell r y x (b y x)) b x y) :=
        revealZerosF_evolves b 101 _ x y
      rcases hev q with h1 | h1
      · rw [h1]
        exact set_target_transitions b r x y hcoh q
      · have hq : q ≠ (x, y) := by
          intro hc
          subst hc
          rw [getCell_setCell_self, hz] at h1
          cases h1.1
        refine Or.inr (Or.inl ⟨?_, h1.2⟩)
        rw [← getCell_setCell_ne r y x (b y x) q hq]
        exact h1.1
    · rw [if_neg hz]
      exact set_target_transitions b r x y hcoh q

/-- Reveal steps keep a grid coherent with its board. -/
theorem coherent_step (b r : Board) (x y : Fin 10) (hcoh : coherent b r) :
    coherent b (reveal_one r b x y).1 := by
  intro q
  rcases reveal_one_transitions b r x y hcoh q with h | h | h
  · rw [h]; exact hcoh q
  · exact Or.inr (Or.inr h.2)
  · exact Or.inr (Or.inr h.2.2)

/-- A whole batch of reveals that leaves the game running, cell by cell. -/
theorem reveal_list_transitions :
    ∀ (coords : List (Fin 10 × Fin 10)) (b r : Board), coherent b r →
      (reveal_list b r coords).2 = false →
      ∀ q : Fin 10 × Fin 10,
        getCell (reveal_list b r coords).1 q = getCell r q ∨
        (getCell r q = Cell.hidden ∧ getCell (reveal_list b r coords).1 q = getCell b q) ∨
        (getCell r q = Cell.flag ∧ q ∈ coords ∧
          getCell (reveal_list b r coords).1 q = getCell b q) := by
  intro coords
  induction coords with
  | nil => intro b r _ _ q; exact Or.inl rfl
  | cons hd tl ih =>
    intro b r hcoh hend q
    obtain ⟨x, y⟩ := hd
    by_cases ho : (reveal_one r b x y).2 ≠ Outcome.ongoing
    · rw [reveal_list_cons_ended b r x y tl ho] at hend
      exact (nomatch hend)
    · have ho' : (reveal_one r b x y).2 = Outcome.ongoing := not_not.mp ho
      rw [reveal_list_cons_ongoing b r x y tl ho'] at hend ⊢
      have hcoh' := coherent_step b r x y hcoh
      rcases ih b (reveal_one r b x y).1 hcoh' hend q with h | h | h
      · rcases reveal_one_transitions b r x y hcoh q with h2 | h2 | h2
        · rw [h, h2]; exact Or.inl rfl
        · refine Or.inr (Or.inl ⟨h2.1, ?_⟩); rw [h, h2.2]
        · refine Or.inr (Or.inr ⟨h2.1, ?_, ?_⟩)
          · rw [h2.2.1]; exact List.mem_cons_self _ _
          · rw [h, h2.2.2]
      · rcases reveal_one_transitions b r x y hcoh q with h2 | h2 | h2
        · refine Or.inr (Or.inl ⟨?_, h.2⟩); rw [← h2]; exact h.1
        · exact Or.inr (Or.inl ⟨h2.1, h.2⟩)
        · refine Or.inr (Or.inr ⟨h2.1, ?_, h.2⟩)
          rw [h2.2.1]; exact List.mem_cons_self _ _
      · rcases reveal_one_transitions b r x y hcoh q with h2 | h2 | h2
        · refine Or.inr (Or.inr ⟨?_, List.mem_cons_of_mem _ h.2.1, h.2.2⟩)
          rw [← h2]; exact h.1
        · exact Or.inr (Or.inl ⟨h2.1, h.2.2⟩)
        · refine Or.inr (Or.inr ⟨h2.1, ?_, h.2.2⟩)
          rw [h2.2.1]; exact List.mem_cons_self _ _

/-- Claim C6, amended: during an Active game (no reveal in the batch ended
it), flag operations only make `Hidden → Flagged` transitions, and reveal
operations only make `Hidden → Revealed` transitions — except that a
directly targeted `Flagged` cell is overwritten to `Revealed` (flags do not
block an explicit reveal, though the flood fill never touches them).
`Revealed` cells are never downgraded and `Flagged → Hidden` never
occurs. -/
theorem c6_display_state_transitions :
    (∀ (r : Board) (coords : List (Fin 10 × Fin 10)) (q : Fin 10 × Fin 10),
        getCell (flag_list r coords) q = getCell r q ∨
        (getCell r q = Cell.hidden ∧ getCell (flag_list r coords) q = Cell.flag)) ∧
    (∀ (coords : List (Fin 10 × Fin 10)) (b r : Board), coherent b r →
        (reveal_list b r coords).2 = false →
        ∀ q : Fin 10 × Fin 10,
          getCell (reveal_list b r coords).1 q = getCell r q ∨
          (getCell r q = Cell.hidden ∧
            getCell (reveal_list b r coords).1 q = getCell b q) ∨
          (getCell r q = Cell.flag ∧ q ∈ coords ∧
            getCell (reveal_list b r coords).1 q = getCell b q)) :=
  ⟨fun r coords q => flag_list_transitions coords r q, reveal_list_transitions⟩

/-- Witness for the amended C6 at concrete inputs: a flag command on the
all-hidden grid, and a one-cell reveal batch at `(0, 0)` (a `Number(1)` cell
next to the single bomb of the `witnessDraws` board) that leaves the game
running. -/
theorem c6_display_state_transitions_witness :
    (getCell (flag_list hiddenBoard [((0 : Fin 10), (0 : Fin 10))]) (0, 0)
        = getCell hiddenBoard (0, 0) ∨
      (getCell hiddenBoard ((0 : Fin 10), (0 : Fin 10)) = Cell.hidden ∧
        getCell (flag_list hiddenBoard [((0 : Fin 10), (0 : Fin 10))]) (0, 0) = Cell.flag)) ∧
    (coherent (generate_board 1 witnessDraws) hiddenBoard ∧
      (reveal_list (generate_board 1 witnessDraws) hiddenBoard
        [((0 : Fin 10), (0 : Fin 10))]).2 = false ∧
      (getCell (reveal_list (generate_board 1 witnessDraws) hiddenBoard
            [((0 : Fin 10), (0 : Fin 10))]).1 (0, 0) = getCell hiddenBoard (0, 0) ∨
        (getCell hiddenBoard ((0 : Fin 10), (0 : Fin 10)) = Cell.hidden ∧
          getCell (reveal_list (generate_board 1 witnessDraws) hiddenBoard
              [((0 : Fin 10), (0 : Fin 10))]).1 (0, 0)
            = getCell (generate_board 1 witnessDraws) (0, 0)) ∨
        (getCell hiddenBoard ((0 : Fin 10), (0 : Fin 10)) = Cell.flag ∧
          ((0 : Fin 10), (0 : Fin 10)) ∈ [((0 : Fin 10), (0 : Fin 10))] ∧
          getCell (reveal_list (generate_board 1 witnessDraws) hiddenBoard
              [((0 : Fin 10), (0 : Fin 10))]).1 (0, 0)
            = getCell (generate_board 1 witnessDraws) (0, 0)))) := by
  have hcoh : coherent (generate_board 1 witnessDraws) hiddenBoard :=
    fun _ => Or.inl rfl
  have hnb00 : generate_board 1 witnessDraws 0 0 ≠ Cell.bomb := by
    have h2 : ¬ getCell (initial_board 1 witnessDraws) ((0 : Fin 10), (0 : Fin 10))
        = Cell.bomb := by decide
    exact fun hc =>
      h2 ((generate_board_bomb_iff 1 witnessDraws ((0 : Fin 10), (0 : Fin 10))).mp hc)
  have hval00 : getCell (generate_board 1 witnessDraws) ((0 : Fin 10), (0 : Fin 10))
      = Cell.num (count_bombs (initial_board 1 witnessDraws) 0 0) := by
    rw [generate_board_eq 1 witnessDraws ((0 : Fin 10), (0 : Fin 10)), if_pos (by decide)]
  have hnz00 : generate_board 1 witnessDraws 0 0 ≠ Cell.num 0 := by
    intro hc
    rw [show generate_board 1 witnessDraws 0 0
        = getCell (generate_board 1 witnessDraws) ((0 : Fin 10), (0 : Fin 10)) from rfl,
      hval00] at hc
    have hcount : count_bombs (initial_board 1 witnessDraws) 0 0 = 0 := Cell.num.inj hc
    revert hcount
    decide
  have hcheckSet : ¬ check_if_won (setCell hiddenBoard 0 0 (generate_board 1 witnessDraws 0 0))
      (generate_board 1 witnessDraws) = true := by
    rw [check_if_won_iff]
    intro hall
    have hnb55 : getCell (generate_board 1 witnessDraws) ((5 : Fin 10), (5 : Fin 10))
        ≠ Cell.bomb := by
      have h2 : ¬ getCell (initial_board 1 witnessDraws) ((5 : Fin 10), (5 : Fin 10))
          = Cell.bomb := by decide
      exact fun hc =>
        h2 ((generate_board_bomb_iff 1 witnessDraws ((5 : Fin 10), (5 : Fin 10))).mp hc)
    apply (hall ((5 : Fin 10), (5 : Fin 10)) hnb55).1
    rw [getCell_setCell_ne _ _ _ _ _ (by decide)]
    rfl
  have hongoing : (reveal_one hiddenBoard (generate_board 1 witnessDraws) 0 0).2
      = Outcome.ongoing := by
    rw [reveal_one_pair hiddenBoard (generate_board 1 witnessDraws) 0 0 hnb00]
    show (if check_if_won (if generate_board 1 witnessDraws 0 0 = Cell.num 0
        then reveal_zeros (setCell hiddenBoard 0 0 (generate_board 1 witnessDraws 0 0))
          (generate_board 1 witnessDraws) 0 0
        else setCell hiddenBoard 0 0 (generate_board 1 witnessDraws 0 0))
        (generate_board 1 witnessDraws) = true
      then Outcome.won else Outcome.ongoing) = Outcome.ongoing
    rw [if_neg hnz00, if_neg hcheckSet]
  have hlist : reveal_list (generate_board 1 witnessDraws) hiddenBoard
      [((0 : Fin 10), (0 : Fin 10))]
      = ((reveal_one hiddenBoard (generate_board 1 witnessDraws) 0 0).1, false) := by
    rw [reveal_list_cons_ongoing _ _ _ _ _ hongoing]
    exact reveal_list_nil _ _
  have hsnd : (reveal_list (generate_board 1 witnessDraws) hiddenBoard
      [((0 : Fin 10), (0 : Fin 10))]).2 = false := by
    rw [hlist]
  exact ⟨c6_display_state_transitions.1 hiddenBoard [((0 : Fin 10), (0 : Fin 10))] (0, 0),
    hcoh, hsnd,
    c6_display_state_transitions.2 [((0 : Fin 10), (0 : Fin 10))]
      (generate_board 1 witnessDraws) hiddenBoard hcoh hsnd (0, 0)⟩

/-- Counterexample to C6 as stated: a `Flagged` cell is not terminal.  On
the `witnessDraws` board (one bomb at `(1, 1)`, so `(0, 0)` holds
`Number(1)`), flag `(0, 0)` and then reveal `(0, 0)`: the game stays
Active (outcome `ongoing`), yet the flagged cell was overwritten to its
revealed value — a `Flagged → Revealed` transition during an Active game,
which the claim says never occurs. -/
theorem c6_counterexample :
    getCell (flag_list hiddenBoard [((0 : Fin 10), (0 : Fin 10))]) (0, 0) = Cell.flag ∧
    (reveal_one (flag_list hiddenBoard [((0 : Fin 10), (0 : Fin 10))])
        (generate_board 1 witnessDraws) 0 0).2 = Outcome.ongoing ∧
    getCell (reveal_one (flag_list hiddenBoard [((0 : Fin 10), (0 : Fin 10))])
        (generate_board 1 witnessDraws) 0 0).1 (0, 0) = Cell.num 1 := by
  have hflag : getCell (flag_list hiddenBoard [((0 : Fin 10), (0 : Fin 10))]) (0, 0)
      = Cell.flag := by decide
  have hnb00 : generate_board 1 witnessDraws 0 0 ≠ Cell.bomb := by
    have h2 : ¬ getCell (initial_board 1 witnessDraws) ((0 : Fin 10), (0 : Fin 10))
        = Cell.bomb := by decide
    exact fun hc =>
      h2 ((generate_board_bomb_iff 1 witnessDraws ((0 : Fin 10), (0 : Fin 10))).mp hc)
  have hval00 : getCell (generate_board 1 witnessDraws) ((0 : Fin 10), (0 : Fin 10))
      = Cell.num (count_bombs (initial_board 1 witnessDraws) 0 0) := by
    rw [generate_board_eq 1 witnessDraws ((0 : Fin 10), (0 : Fin 10)), if_pos (by decide)]
  have hcount1 : count_bombs (initial_board 1 witnessDraws) 0 0 = 1 := by decide
  have hb001 : generate_board 1 witnessDraws 0 0 = Cell.num 1 := by
    rw [show generate_board 1 witnessDraws 0 0
        = getCell (generate_board 1 witnessDraws) ((0 : Fin 10), (0 : Fin 10)) from rfl,
      hval00, hcount1]
  have hnz00 : generate_board 1 witnessDraws 0 0 ≠ Cell.num 0 := by
    rw [hb001]
    intro hc
    cases hc
  have hcheckSet : ¬ check_if_won
      (setCell (flag_list hiddenBoard [((0 : Fin 10), (0 : Fin 10))]) 0 0
        (generate_board 1 witnessDraws 0 0))
      (generate_board 1 witnessDraws) = true := by
    rw [check_if_won_iff]
    intro hall
    have hnb55 : getCell (generate_board 1 witnessDraws) ((5 : Fin 10), (5 : Fin 10))
        ≠ Cell.bomb := by
      have h2 : ¬ getCell (initial_board 1 witnessDraws) ((5 : Fin 10), (5 : Fin 10))
          = Cell.bomb := by decide
      exact fun hc =>
        h2 ((generate_board_bomb_iff 1 witnessDraws ((5 : Fin 10), (5 : Fin 10))).mp hc)
    apply (hall ((5 : Fin 10), (5 : Fin 10)) hnb55).1
    rw [getCell_setCell_ne _ _ _ _ _ (by decide)]
    decide
  have hongoing : (reveal_one (flag_list hiddenBoard [((0 : Fin 10), (0 : Fin 10))])
      (generate_board 1 witnessDraws) 0 0).2 = Outcome.ongoing := by
    rw [reveal_one_pair (flag_list hiddenBoard [((0 : Fin 10), (0 : Fin 10))])
      (generate_board 1 witnessDraws) 0 0 hnb00]
    show (if check_if_won (if generate_board 1 witnessDraws 0 0 = Cell.num 0
        then reveal_zeros (setCell (flag_list hiddenBoard [((0 : Fin 10), (0 : Fin 10))]) 0 0
            (generate_board 1 witnessDraws 0 0)) (generate_board 1 witnessDraws) 0 0
        else setCell (flag_list hiddenBoard [((0 : Fin 10), (0 : Fin 10))]) 0 0
            (generate_board 1 witnessDraws 0 0))
        (generate_board 1 witnessDraws) = true
      then Outcome.won else Outcome.ongoing) = Outcome.ongoing
    rw [if_neg hnz00, if_neg hcheckSet]
  have hfst : (reveal_one (flag_list hiddenBoard [((0 : Fin 10), (0 : Fin 10))])
      (generate_board 1 witnessDraws) 0 0).1
      = setCell (flag_list hiddenBoard [((0 : Fin 10), (0 : Fin 10))]) 0 0
          (generate_board 1 witnessDraws 0 0) := by
    rw [reveal_one_fst_not_bomb (flag_list hiddenBoard [((0 : Fin 10), (0 : Fin 10))])
      (generate_board 1 witnessDraws) 0 0 hnb00, if_neg hnz00]
  refine ⟨hflag, hongoing, ?_⟩
  rw [hfst, getCell_setCell_self, hb001]

/-! ## The game store: board immutability (C8) and start atomicity (C9) -/

theorem updateStore_self (games : GamesDict) (pid : Nat) (v : Option Game) :
    updateStore games pid v pid = v := if_pos rfl

theorem updateStore_ne (games : GamesDict) (pid : Nat) (v : Option Game) (p : Nat)
    (h : p ≠ pid) : updateStore games pid v p = games p := if_neg h

/-- One dispatched command never changes the board of a record that exists
before and after it. -/
theorem applyCommand_board (c : Command) (games : GamesDict) (pid : Nat) (g g' : Game)
    (hg : games pid = some g) (hg' : applyCommand games c pid = some g') :
    g'.board = g.board := by
  have hsome : ∀ gx : Game, some gx = some g' → g'.board = gx.board := by
    intro gx h
    injection h with h2
    rw [← h2]
  cases c with
  | start pid2 bc draws =>
    simp only [applyCommand] at hg'
    unfold start_command at hg'
    cases hpid2 : games pid2 with
    | some g2 =>
      rw [hpid2] at hg'
      change games pid = some g' at hg'
      rw [hg] at hg'
      exact hsome g hg'
    | none =>
      rw [hpid2] at hg'
      change updateStore games pid2
        (some { board := generate_board bc draws, revealed := hiddenBoard }) pid
        = some g' at hg'
      by_cases hpp : pid = pid2
      · rw [← hpp] at hpid2
        rw [hg] at hpid2
        exact Option.noConfusion hpid2
      · rw [updateStore_ne _ _ _ _ hpp] at hg'
        rw [hg] at hg'
        exact hsome g hg'
  | flag pid2 coords =>
    simp only [applyCommand] at hg'
    unfold flag_command at hg'
    cases hpid2 : games pid2 with
    | none =>
      rw [hpid2] at hg'
      change games pid = some g' at hg'
      rw [hg] at hg'
      exact hsome g hg'
    | some g2 =>
      rw [hpid2] at hg'
      change updateStore games pid2
        (some { board := g2.board, revealed := flag_list g2.revealed coords }) pid
        = some g' at hg'
      by_cases hpp : pid = pid2
      · rw [hpp] at hg
        rw [hg] at hpid2
        injection hpid2 with h2
        rw [hpp, updateStore_self] at hg'
        rw [hsome _ hg']
        show g2.board = g.board
        rw [← h2]
      · rw [updateStore_ne _ _ _ _ hpp] at hg'
        rw [hg] at hg'
        exact hsome g hg'
  | reveal pid2 coords =>
    simp only [applyCommand] at hg'
    unfold reveal_command at hg'
    cases hpid2 : games pid2 with
    | none =>
      rw [hpid2] at hg'
      change games pid = some g' at hg'
      rw [hg] at hg'
      exact hsome g hg'
    | some g2 =>
      rw [hpid2] at hg'
      change (if (reveal_list g2.board g2.revealed coords).2 = true
          then updateStore games pid2 none
          else updateStore games pid2
            (some { board := g2.board, revealed := (reveal_list g2.board g2.revealed coords).1 })) pid
        = some g' at hg'
      by_cases hend : (reveal_list g2.board g2.revealed coords).2 = true
      · rw [if_pos hend] at hg'
        by_cases hpp : pid = pid2
        · rw [hpp, updateStore_self] at hg'
          exact Option.noConfusion hg'
        · rw [updateStore_ne _ _ _ _ hpp] at hg'
          rw [hg] at hg'
          exact hsome g hg'
      · rw [if_neg hend] at hg'
        by_cases hpp : pid = pid2
        · rw [hpp] at hg
          rw [hg] at hpid2
          injection hpid2 with h2
          rw [hpp, updateStore_self] at hg'
          rw [hsome _ hg']
          show g2.board = g.board
          rw [← h2]
        · rw [updateStore_ne _ _ _ _ hpp] at hg'
          rw [hg] at hg'
          exact hsome g hg'
  | endGame pid2 =>
    simp only [applyCommand] at hg'
    unfold end_command at hg'
    cases hpid2 : games pid2 with
    | none =>
      rw [hpid2] at hg'
      change games pid = some g' at hg'
      rw [hg] at hg'
      exact hsome g hg'
    | some g2 =>
      rw [hpid2] at hg'
      change updateStore games pid2 none pid = some g' at hg'
      by_cases hpp : pid = pid2
      · rw [hpp, updateStore_self] at hg'
        exact Option.noConfusion hg'
      · rw [updateStore_ne _ _ _ _ hpp] at hg'
        rw [hg] at hg'
        exact hsome g hg'

/-- Over any command sequence during which the record persists, its board
never changes. -/
theorem applyCommands_board :
    ∀ (cmds : List Command) (games : GamesDict) (pid : Nat) (g : Game),
      games pid = some g →
      (∀ n : Nat, ∃ gn : Game, ((cmds.take n).foldl applyCommand games) pid = some gn) →
      ∀ g' : Game, (cmds.foldl applyCommand games) pid = some g' → g'.board = g.board := by
  intro cmds
  induction cmds with
  | nil =>
    intro games pid g hg _ g' hg'
    rw [List.foldl_nil] at hg'
    rw [hg] at hg'
    injection hg' with h
    rw [← h]
  | cons c rest ih =>
    intro games pid g hg hpersist g' hg'
    obtain ⟨g1, hg1⟩ := hpersist 1
    have hg1' : applyCommand games c pid = some g1 := by
      simpa using hg1
    have hb1 : g1.board = g.board := applyCommand_board c games pid g g1 hg hg1'
    rw [List.foldl_cons] at hg'
    have hpersist' : ∀ n : Nat, ∃ gn : Game,
        ((rest.take n).foldl applyCommand (applyCommand games c)) pid = some gn := by
      intro n
      obtain ⟨gn, hgn⟩ := hpersist (n + 1)
      exact ⟨gn, by simpa using hgn⟩
    have hrest := ih (applyCommand games c) pid g1 hg1' hpersist' g' hg'
    rw [hrest, hb1]

/-- Claim C8.  The board of a game is fixed at game start: no flag, reveal,
end or rejected start ever changes the `board` of a record, neither in one
command nor across any sequence of commands during which the record
persists in the store (the in-place Python mutations and the terminal
aliasing of `revealed` to `board` only ever touch the `revealed` side). -/
theorem c8_board_immutable :
    (∀ (c : Command) (games : GamesDict) (pid : Nat) (g g' : Game),
        games pid = some g → applyCommand games c pid = some g' →
        g'.board = g.board) ∧
    (∀ (cmds : List Command) (games : GamesDict) (pid : Nat) (g : Game),
        games pid = some g →
        (∀ n : Nat, ∃ gn : Game, ((cmds.take n).foldl applyCommand games) pid = some gn) →
        ∀ g' : Game, (cmds.foldl applyCommand games) pid = some g' → g'.board = g.board) :=
  ⟨applyCommand_board, applyCommands_board⟩

/-- The single-record store used by the C8 and C9 witnesses. -/
def witnessGames2 : GamesDict :=
  fun p => if p = 3 then some { board := zeroBoard, revealed := hiddenBoard } else none

/-- Witness for C8 at a concrete input: one flag command on a stored game
leaves its board untouched. -/
theorem c8_board_immutable_witness :
    witnessGames2 3 = some { board := zeroBoard, revealed := hiddenBoard } ∧
    ([Command.flag 3 [((0 : Fin 10), (0 : Fin 10))]].foldl applyCommand witnessGames2) 3
      = some { board := zeroBoard,
               revealed := flag_list hiddenBoard [((0 : Fin 10), (0 : Fin 10))] } ∧
    Game.board { board := zeroBoard,
                 revealed := flag_list hiddenBoard [((0 : Fin 10), (0 : Fin 10))] }
      = Game.board { board := zeroBoard, revealed := hiddenBoard } := by
  have h1 : witnessGames2 3 = some { board := zeroBoard, revealed := hiddenBoard } := rfl
  have h4 : ([Command.flag 3 [((0 : Fin 10), (0 : Fin 10))]].foldl applyCommand witnessGames2) 3
      = some { board := zeroBoard,
               revealed := flag_list hiddenBoard [((0 : Fin 10), (0 : Fin 10))] } := rfl
  have hpersist : ∀ n : Nat, ∃ gn : Game,
      (([Command.flag 3 [((0 : Fin 10), (0 : Fin 10))]].take n).foldl
        applyCommand witnessGames2) 3 = some gn := by
    intro n
    cases n with
    | zero => exact ⟨{ board := zeroBoard, revealed := hiddenBoard }, h1⟩
    | succ m =>
      have ht : ([Command.flag 3 [((0 : Fin 10), (0 : Fin 10))]].take (m + 1))
          = [Command.flag 3 [((0 : Fin 10), (0 : Fin 10))]] := by simp
      rw [ht]
      exact ⟨_, h4⟩
  exact ⟨h1, h4,
    c8_board_immutable.2 [Command.flag 3 [((0 : Fin 10), (0 : Fin 10))]] witnessGames2 3
      { board := zeroBoard, revealed := hiddenBoard } h1 hpersist
      { board := zeroBoard,
        revealed := flag_list hiddenBoard [((0 : Fin 10), (0 : Fin 10))] } h4⟩

/-- Claim C9.  Starting a game for a player who already has an active
record returns `GameAlreadyActive` and is a no-op: the whole store is
returned unchanged, so the original record — board and revealed grid — is
still there under the player's key. -/
theorem c9_start_already_active (games : GamesDict) (pid : Nat) (g : Game) (bc : ℚ)
    (draws : Fin 10 → Fin 10 → ℚ) (hg : games pid = some g) :
    start_command games pid bc draws = (games, StartResult.gameAlreadyActive) ∧
    (start_command games pid bc draws).1 pid = some g := by
  unfold start_command
  rw [hg]
  exact ⟨rfl, hg⟩

/-- Witness for C9 at a concrete input. -/
theorem c9_start_already_active_witness :
    witnessGames2 3 = some { board := zeroBoard, revealed := hiddenBoard } ∧
    (start_command witnessGames2 3 1 (fun _ _ => 1)
        = (witnessGames2, StartResult.gameAlreadyActive) ∧
      (start_command witnessGames2 3 1 (fun _ _ => 1)).1 3
        = some { board := zeroBoard, revealed := hiddenBoard }) :=
  ⟨rfl, c9_start_already_active witnessGames2 3
    { board := zeroBoard, revealed := hiddenBoard } 1 (fun _ _ => 1) rfl⟩

end Minesweeper
